import Mathlib

/-!
Verification of the bytecode interpreter in `src/runtime.rs` of rustnut.

The interpreter state (`Interpreter::run`) is embedded shallowly: the loaded
image, operand stack and heap are byte memories modelled as functions from
offsets to bytes, and the four mutable cursors `sp`, `bp`, `pc`, `pp` are
naturals.  Every macro of the source (`push!`, `pop!`, `jump_to!`,
`var_table_diff!`, `load_arr!`, `calc!`, ...) becomes an explicit
state-passing function returning `Except ExitStatus`, where an `error`
corresponds to `exit!(...)` breaking out of the `'operator` loop.  Machine
(`usize`/`u64`) arithmetic wraps modulo `2 ^ 64` at the places where the
source can overflow.
-/

set_option linter.unusedVariables false

/-- Maximum operand stack size in bytes (`max_stack_size` in `Interpreter::run`). -/
def MAX_STACK : Nat := 1024

/-- Offset of the constant pool in the bytecode image (`pool_offset`). -/
def POOL_OFFSET : Nat := 128

/-- Exit statuses of the interpreter, mirroring the `ExitStatus` enum. -/
inductive ExitStatus where
  | Success
  | UnknownOpcode
  | UnknownCallNumber
  | BytecodeAccessViolation
  | StackOverflow
  | StackAccessViolation
  | ArrayAccessViolation
  | ArithmeticOverflow
  | DivideByZero
  | Unknown
  deriving DecidableEq, Repr

/-- Point update of a byte memory modelled as a function from offsets to bytes. -/
def upd (m : Nat → Nat) (i v : Nat) : Nat → Nat :=
  fun j => if j = i then v else m j

/-- Little-endian read of `w` bytes starting at offset `off`.  Each cell is
reduced modulo 256, so the result of a `w`-byte read is below `256 ^ w`. -/
def readLE (m : Nat → Nat) (off w : Nat) : Nat :=
  match w with
  | 0 => 0
  | w' + 1 => m off % 256 + 256 * readLE m (off + 1) w'

/-- Little-endian write of the `w` low-order bytes of `v` starting at `off`. -/
def writeLE (m : Nat → Nat) (off w v : Nat) : Nat → Nat :=
  match w with
  | 0 => m
  | w' + 1 => writeLE (upd m off (v % 256)) (off + 1) w' (v / 256)

/-- Interpreter state between opcode dispatches: the loaded image, the operand
stack bytes, the array-heap bytes with a bump allocator standing in for
`malloc`, and the four cursors `sp`, `bp`, `pc`, `pp` of `Interpreter::run`. -/
structure VM where
  image : Nat → Nat
  imageLen : Nat
  stack : Nat → Nat
  heap : Nat → Nat
  allocPtr : Nat
  sp : Nat
  bp : Nat
  pc : Nat
  pp : Nat

/-- Sequencing of stateful operations that may terminate with an exit status;
an `error` models `exit!` breaking out of the `'operator` loop. -/
def bindE {α β : Type} (x : Except ExitStatus (α × VM))
    (f : α → VM → Except ExitStatus (β × VM)) : Except ExitStatus (β × VM) :=
  match x with
  | .error e => .error e
  | .ok p => f p.1 p.2

/-- Forgets the unit value of a finished opcode body. -/
def toStep (x : Except ExitStatus (Unit × VM)) : Except ExitStatus VM :=
  match x with
  | .error e => .error e
  | .ok p => .ok p.2

/-- `jump_prg_to!`: absolute jump of the program counter, checked against the
image length. -/
def jump_prg_to (t : Nat) (s : VM) : Except ExitStatus (Unit × VM) :=
  if t > s.imageLen then .error .BytecodeAccessViolation
  else .ok ((), { s with pc := t })

/-- `jump_stack_to!`: absolute move of the stack pointer, checked against
`MAX_STACK`. -/
def jump_stack_to (t : Nat) (s : VM) : Except ExitStatus (Unit × VM) :=
  if t > MAX_STACK then .error .StackAccessViolation
  else .ok ((), { s with sp := t })

/-- `next_prg!`: reads `w` bytes at `pc` from the image and advances `pc`,
checked against the image length. -/
def next_prg (w : Nat) (s : VM) : Except ExitStatus (Nat × VM) :=
  if s.pc + w > s.imageLen then .error .BytecodeAccessViolation
  else .ok (readLE s.image s.pc w, { s with pc := s.pc + w })

/-- `next_pool!`: reads `w` bytes at `pp` from the image and advances `pp`. -/
def next_pool (w : Nat) (s : VM) : Except ExitStatus (Nat × VM) :=
  if s.pp + w > s.imageLen then .error .BytecodeAccessViolation
  else .ok (readLE s.image s.pp w, { s with pp := s.pp + w })

/-- Value of a little-endian `i16` immediate, as a signed integer. -/
def i16val (v : Nat) : Int :=
  if v < 32768 then (v : Int) else (v : Int) - 65536

/-- `next_prg!(i16)`: reads a sign-extended 16-bit branch offset. -/
def next_prg_i16 (s : VM) : Except ExitStatus (Int × VM) :=
  if s.pc + 2 > s.imageLen then .error .BytecodeAccessViolation
  else .ok (i16val (readLE s.image s.pc 2), { s with pc := s.pc + 2 })

/-- The underlying `jump_to!` on the pool cursor `pp`. -/
def jump_pp (t : Nat) (s : VM) : Except ExitStatus (Unit × VM) :=
  if t > s.imageLen then .error .BytecodeAccessViolation
  else .ok ((), { s with pp := t })

/-- `jump_pool_to!`: moves `pp` to pool slot `pool_i` (with `usize` wraparound
in the address computation), reads the value address stored there, and moves
`pp` to that address. -/
def jump_pool_to (pool_i : Nat) (s : VM) : Except ExitStatus (Unit × VM) :=
  bindE (jump_pp ((POOL_OFFSET + pool_i * 8) % 2 ^ 64) s) fun _ s₁ =>
  bindE (next_pool 8 s₁) fun value_addr s₂ =>
  jump_pp value_addr s₂

/-- `stack_push!`: writes the `w` low bytes of `v` at `sp` and advances `sp`,
checked against `MAX_STACK` with `StackOverflow`. -/
def stack_push (w v : Nat) (s : VM) : Except ExitStatus (Unit × VM) :=
  if s.sp + w > MAX_STACK then .error .StackOverflow
  else .ok ((), { s with stack := writeLE s.stack s.sp w v, sp := s.sp + w })

/-- `unsafe_stack_pop!` (the raw `pop!`): only checks that `sp ≥ w`; used for
frame teardown in `ret`. -/
def raw_stack_pop (w : Nat) (s : VM) : Except ExitStatus (Nat × VM) :=
  if s.sp < w then .error .StackAccessViolation
  else .ok (readLE s.stack (s.sp - w) w, { s with sp := s.sp - w })

/-- `stack_pop!`: refuses to reach into the 16-byte frame anchor below
`bp + 16`, then pops as `raw_stack_pop`. -/
def stack_pop (w : Nat) (s : VM) : Except ExitStatus (Nat × VM) :=
  if s.sp < s.bp + 16 + w then .error .StackAccessViolation
  else raw_stack_pop w s

/-- `stack_pop!($ty, $len)`: `n` successive checked pops of width `w`. -/
def stack_popN (w : Nat) : Nat → VM → Except ExitStatus (Unit × VM)
  | 0, s => .ok ((), s)
  | n + 1, s => bindE (stack_pop w s) fun _ s₁ => stack_popN w n s₁

/-- `unsafe_stack_pop!($ty, $len)`: `n` successive raw pops of width `w`. -/
def raw_stack_popN (w : Nat) : Nat → VM → Except ExitStatus (Unit × VM)
  | 0, s => .ok ((), s)
  | n + 1, s => bindE (raw_stack_pop w s) fun _ s₁ => raw_stack_popN w n s₁

/-- `unsafe_stack_top!` (the raw `top!`): reads the top `w` bytes without
moving `sp`; its error status is `StackOverflow` in the source. -/
def raw_stack_top (w : Nat) (s : VM) : Except ExitStatus (Nat × VM) :=
  if s.sp < w then .error .StackOverflow
  else .ok (readLE s.stack (s.sp - w) w, s)

/-- `stack_top!`: anchored read of the top `w` bytes. -/
def stack_top (w : Nat) (s : VM) : Except ExitStatus (Nat × VM) :=
  if s.sp < s.bp + 16 + w then .error .StackAccessViolation
  else raw_stack_top w s

/-- `var_table_diff!`: distance from `sp` back to variable-table slot `i` for
an access of width `w`; checks that the frame anchor is present and that the
slot lies inside the frame. -/
def var_table_diff (w i : Nat) (s : VM) : Except ExitStatus (Nat × VM) :=
  if s.sp < s.bp + 16 then .error .StackAccessViolation
  else
    let diff := s.sp - s.bp - 16
    if diff < 4 * i + w then .error .StackAccessViolation
    else .ok (diff - i * 4, s)

/-- `load!`: pushes the `w`-byte value of variable-table slot `i`. -/
def load_var (w i : Nat) (s : VM) : Except ExitStatus (Unit × VM) :=
  bindE (var_table_diff w i s) fun diff s₁ =>
  stack_push w (readLE s₁.stack (s₁.sp - diff) w) s₁

/-- `store!`: writes the `w` low bytes of `v` into variable-table slot `i`. -/
def store_var (w i v : Nat) (s : VM) : Except ExitStatus (Unit × VM) :=
  bindE (var_table_diff w i s) fun diff s₁ =>
  .ok ((), { s₁ with stack := writeLE s₁.stack (s₁.sp - diff) w v })

/-- `load_arr!`: pops an index and an array address, bound-checks the access
with wrapping `usize` arithmetic as the source does, and pushes element `i`. -/
def load_arr (w : Nat) (s : VM) : Except ExitStatus (Unit × VM) :=
  bindE (stack_pop 8 s) fun arr_i s₁ =>
  bindE (stack_pop 8 s₁) fun arr_ptr s₂ =>
  let arr_size := readLE s₂.heap arr_ptr 8
  if (arr_i + 1) % 2 ^ 64 * w % 2 ^ 64 > arr_size then .error .ArrayAccessViolation
  else stack_push w (readLE s₂.heap (arr_ptr + 8 + arr_i * w) w) s₂

/-- `store_arr!`: pops a value of width `pw`, narrows it to the element width
`w`, pops an index and an array address, bound-checks and writes element `i`. -/
def store_arr (w pw : Nat) (s : VM) : Except ExitStatus (Unit × VM) :=
  bindE (stack_pop pw s) fun v s₁ =>
  let value := v % 256 ^ w
  bindE (stack_pop 8 s₁) fun arr_i s₂ =>
  bindE (stack_pop 8 s₂) fun arr_ptr s₃ =>
  let arr_size := readLE s₃.heap arr_ptr 8
  if (arr_i + 1) % 2 ^ 64 * w % 2 ^ 64 > arr_size then .error .ArrayAccessViolation
  else .ok ((), { s₃ with heap := writeLE s₃.heap (arr_ptr + 8 + arr_i * w) w value })

/-- `stack_push_arr!`: reads the element count as a `u64` immediate, allocates
a buffer with a `size_in_bytes` header computed with `usize` wraparound, and
pushes the buffer address. -/
def stack_push_arr (w : Nat) (s : VM) : Except ExitStatus (Unit × VM) :=
  bindE (next_prg 8 s) fun n s₁ =>
  let arr_len := n * w % 2 ^ 64
  let addr := s₁.allocPtr
  let s₂ := { s₁ with heap := writeLE s₁.heap addr 8 arr_len,
                      allocPtr := s₁.allocPtr + 8 + arr_len }
  stack_push 8 addr s₂

/-- `u32::overflowing_add` and its `u64` sibling, at byte width `w`. -/
def ovAdd (w a b : Nat) : Nat × Bool :=
  ((a + b) % 256 ^ w, decide (256 ^ w ≤ a + b))

/-- `overflowing_sub` at byte width `w`. -/
def ovSub (w a b : Nat) : Nat × Bool :=
  (if b ≤ a then a - b else a + 256 ^ w - b, decide (a < b))

/-- `overflowing_mul` at byte width `w`. -/
def ovMul (w a b : Nat) : Nat × Bool :=
  (a * b % 256 ^ w, decide (256 ^ w ≤ a * b))

/-- `overflowing_div` for unsigned operands: never overflows (the source
checks for a zero divisor beforehand). -/
def ovDiv (w a b : Nat) : Nat × Bool :=
  (a / b, false)

/-- `calc!`: pops the right then the left operand, optionally checks for a
zero divisor, applies the overflowing operation and pushes the result. -/
def calcBin (w : Nat) (f : Nat → Nat → Nat × Bool) (chkDiv : Bool) (s : VM) :
    Except ExitStatus (Unit × VM) :=
  bindE (stack_pop w s) fun right_term s₁ =>
  bindE (stack_pop w s₁) fun left_term s₂ =>
  if chkDiv ∧ right_term = 0 then .error .DivideByZero
  else
    let vo := f left_term right_term
    if vo.2 then .error .ArithmeticOverflow
    else stack_push w vo.1 s₂

/-- `goto!`: reads the signed 16-bit offset, forms the branch target relative
to the advanced `pc`, rejects negative targets and jumps. -/
def goto_m (s : VM) : Except ExitStatus (Unit × VM) :=
  bindE (next_prg_i16 s) fun off s₁ =>
  let inst_i : Int := (s₁.pc : Int) + off
  if inst_i < 0 then .error .BytecodeAccessViolation
  else jump_prg_to inst_i.toNat s₁

/-- `goto_if!`: takes the branch when `cond` holds, otherwise just consumes
the 16-bit offset. -/
def goto_if (cond : Bool) (s : VM) : Except ExitStatus (Unit × VM) :=
  if cond then goto_m s
  else bindE (next_prg_i16 s) fun _ s₁ => .ok ((), s₁)

/-- The `arg_len` snapshot of `Opcode::Invoke`: the top `arg_len` `u32`
arguments in source order, lowest address first. -/
def argSnapshot (s : VM) (arg_len : Nat) : List Nat :=
  (List.range arg_len).map fun i => readLE s.stack (s.sp - 4 * (arg_len - i)) 4

/-- Re-pushing of the snapshotted arguments in original order. -/
def push_args : List Nat → VM → Except ExitStatus (Unit × VM)
  | [], s => .ok ((), s)
  | a :: rest, s => bindE (stack_push 4 a s) fun _ s₁ => push_args rest s₁

/-- The `Opcode::Invoke` arm, after the opcode byte has been consumed: resolve
the function descriptor through the pool, validate, pop the arguments with the
checked pop, build the new frame anchor, re-push the arguments, reserve the
remaining variable slots and jump to the function start. -/
def op_invoke (s : VM) : Except ExitStatus VM :=
  toStep <|
  bindE (next_prg 8 s) fun pool_i s₁ =>
  bindE (jump_pool_to pool_i s₁) fun _ s₂ =>
  bindE (next_pool 8 s₂) fun start_addr s₃ =>
  bindE (next_pool 2 s₃) fun var_len s₄ =>
  bindE (next_pool 1 s₄) fun arg_len s₅ =>
  if var_len < arg_len ∨ s₅.sp < arg_len * 4 then .error .StackAccessViolation
  else
    let args := argSnapshot s₅ arg_len
    bindE (stack_popN 4 arg_len s₅) fun _ s₆ =>
    let new_bp := s₆.sp
    bindE (stack_push 8 s₆.bp s₆) fun _ s₇ =>
    let s₇' := { s₇ with bp := new_bp }
    let ret_addr := s₇'.pc
    bindE (stack_push 8 ret_addr s₇') fun _ s₈ =>
    bindE (push_args args s₈) fun _ s₉ =>
    bindE (jump_stack_to (s₉.sp + (var_len - arg_len) * 4) s₉) fun _ s₁₀ =>
    jump_prg_to start_addr s₁₀

/-- The `Opcode::Ret` arm: peel the operand and variable portion with raw
pops, restore `pc` from the return address and `bp` from the saved base
pointer. -/
def op_ret (s : VM) : Except ExitStatus VM :=
  if s.sp < s.bp ∨ s.sp - s.bp < 16 then .error .StackAccessViolation
  else
    toStep <|
    bindE (raw_stack_popN 1 (s.sp - s.bp - 16) s) fun _ s₁ =>
    bindE (raw_stack_pop 8 s₁) fun ret_addr s₂ =>
    bindE (jump_prg_to ret_addr s₂) fun _ s₃ =>
    bindE (raw_stack_pop 8 s₃) fun saved s₄ =>
    .ok ((), { s₄ with bp := saved })

/-- The `Opcode::Call` arm: syscall 0 reads from stdin into a local buffer
(no interpreter-state effect), syscall 1 pops the array address to print, any
other id is `UnknownCallNumber`. -/
def op_call (s : VM) : Except ExitStatus VM :=
  toStep <|
  bindE (next_prg 1 s) fun code s₁ =>
  if code = 0 then .ok ((), s₁)
  else if code = 1 then bindE (stack_pop 8 s₁) fun _ s₂ => .ok ((), s₂)
  else .error .UnknownCallNumber

/-- `stack_push_next_prg!`: pushes an immediate of width `rw` as a value of
width `pw` (zero extension for the narrower `bpush`/`spush`). -/
def push_imm (rw pw : Nat) (s : VM) : Except ExitStatus (Unit × VM) :=
  bindE (next_prg rw s) fun v s₁ => stack_push pw v s₁

/-- `dup`/`dup2`: anchored read of the top `w` bytes, pushed again. -/
def op_dup (w : Nat) (s : VM) : Except ExitStatus (Unit × VM) :=
  bindE (stack_top w s) fun v s₁ => stack_push w v s₁

/-- `pop`/`pop2`/`drop`: checked pop with the value discarded. -/
def op_discard (w : Nat) (s : VM) : Except ExitStatus (Unit × VM) :=
  bindE (stack_pop w s) fun _ s₁ => .ok ((), s₁)

/-- `load`/`load2`: reads the `u16` variable index and pushes the slot. -/
def op_load_var (w : Nat) (s : VM) : Except ExitStatus (Unit × VM) :=
  bindE (next_prg 2 s) fun i s₁ => load_var w i s₁

/-- `store`/`store2`: reads the `u16` variable index, pops the value and
stores it into the slot. -/
def op_store_var (w : Nat) (s : VM) : Except ExitStatus (Unit × VM) :=
  bindE (next_prg 2 s) fun i s₁ =>
  bindE (stack_pop w s₁) fun v s₂ =>
  store_var w i v s₂

/-- The comparison arms (`ieq` ... `leqord`): pop two operands of width `w`
and push the boolean as a `u32`. -/
def op_cmp (w : Nat) (f : Nat → Nat → Bool) (s : VM) : Except ExitStatus (Unit × VM) :=
  bindE (stack_pop w s) fun value2 s₁ =>
  bindE (stack_pop w s₁) fun value1 s₂ =>
  stack_push 4 (if f value1 value2 then 1 else 0) s₂

/-- `if`/`ifnot`: pop the `u32` condition and branch conditionally. -/
def op_cond (flip : Bool) (s : VM) : Except ExitStatus (Unit × VM) :=
  bindE (stack_pop 4 s) fun cond s₁ =>
  goto_if (if flip then cond = 0 else cond ≠ 0) s₁

/-- Dispatch over the opcode byte; byte `b` decodes to discriminant `b + 1`
of the `Opcode` enum, values above `ifnot` are `UnknownOpcode`. -/
def execOp (op : Nat) (s : VM) : Except ExitStatus VM :=
  match op with
  | 0 => .ok s
  | 1 => .error .Success
  | 2 => op_call s
  | 3 => op_invoke s
  | 4 => op_ret s
  | 5 => toStep (stack_push_arr 1 s)
  | 6 => toStep (stack_push_arr 2 s)
  | 7 => toStep (stack_push_arr 4 s)
  | 8 => toStep (stack_push_arr 8 s)
  | 9 => toStep (push_imm 1 4 s)
  | 10 => toStep (push_imm 2 4 s)
  | 11 => toStep (push_imm 4 4 s)
  | 12 => toStep (push_imm 8 8 s)
  | 13 => toStep (op_dup 4 s)
  | 14 => toStep (op_dup 8 s)
  | 15 => toStep (op_discard 4 s)
  | 16 => toStep (op_discard 8 s)
  | 17 => toStep (op_load_var 4 s)
  | 18 => toStep (op_load_var 8 s)
  | 19 => toStep (load_arr 1 s)
  | 20 => toStep (load_arr 2 s)
  | 21 => toStep (load_arr 4 s)
  | 22 => toStep (load_arr 8 s)
  | 23 => toStep (op_store_var 4 s)
  | 24 => toStep (op_store_var 8 s)
  | 25 => toStep (store_arr 1 4 s)
  | 26 => toStep (store_arr 2 4 s)
  | 27 => toStep (store_arr 4 4 s)
  | 28 => toStep (store_arr 8 8 s)
  | 29 => toStep (op_discard 8 s)
  | 30 => toStep (calcBin 4 (ovAdd 4) false s)
  | 31 => toStep (calcBin 8 (ovAdd 8) false s)
  | 32 => toStep (calcBin 4 (ovSub 4) false s)
  | 33 => toStep (calcBin 8 (ovSub 8) false s)
  | 34 => toStep (calcBin 4 (ovMul 4) false s)
  | 35 => toStep (calcBin 8 (ovMul 8) false s)
  | 36 => toStep (calcBin 4 (ovDiv 4) true s)
  | 37 => toStep (calcBin 8 (ovDiv 8) true s)
  | 38 => toStep (op_cmp 4 (fun a b => a = b) s)
  | 39 => toStep (op_cmp 8 (fun a b => a = b) s)
  | 40 => toStep (op_cmp 4 (fun a b => a < b) s)
  | 41 => toStep (op_cmp 8 (fun a b => a < b) s)
  | 42 => toStep (op_cmp 4 (fun a b => b < a) s)
  | 43 => toStep (op_cmp 8 (fun a b => b < a) s)
  | 44 => toStep (op_cmp 4 (fun a b => a ≤ b) s)
  | 45 => toStep (op_cmp 8 (fun a b => a ≤ b) s)
  | 46 => toStep (goto_m s)
  | 47 => toStep (op_cond false s)
  | 48 => toStep (op_cond true s)
  | _ => .error .UnknownOpcode

/-- One iteration of the `'operator` loop: fetch the opcode byte and
dispatch. -/
def step (s : VM) : Except ExitStatus VM :=
  match next_prg 1 s with
  | .error e => .error e
  | .ok p => execOp p.1 p.2

/-- The state at the top of the `'operator` loop: the entry-point call-stack
element (saved base pointer 0 and return address `IMAGE_LEN - 1`) has been
pushed onto an otherwise fresh stack. -/
def initVM (im : Nat → Nat) (len entry : Nat) : VM :=
  { image := im
    imageLen := len
    stack := writeLE (writeLE (fun _ => 0) 0 8 0) 8 8 (len - 1)
    heap := fun _ => 0
    allocPtr := 2 ^ 32
    sp := 16
    bp := 0
    pc := entry
    pp := POOL_OFFSET }

/-- Interpreter states reachable from `a` by successful loop iterations. -/
inductive Reaches : VM → VM → Prop
  | refl (s : VM) : Reaches s s
  | tail {a b c : VM} : Reaches a b → step b = .ok c → Reaches a c

/-- Cells strictly below the written region are untouched by `writeLE`. -/
theorem writeLE_eq_of_lt (m : Nat → Nat) (off w v j : Nat) (h : j < off) :
    writeLE m off w v j = m j := by
  induction w generalizing m off v with
  | zero => rfl
  | succ w' ih =>
    simp only [writeLE]
    rw [ih _ _ _ (by omega)]
    exact if_neg (by omega)

/-- Cells at or above the end of the written region are untouched by `writeLE`. -/
theorem writeLE_eq_of_ge (m : Nat → Nat) (off w v j : Nat) (h : off + w ≤ j) :
    writeLE m off w v j = m j := by
  induction w generalizing m off v with
  | zero => rfl
  | succ w' ih =>
    simp only [writeLE]
    rw [ih _ _ _ (by omega)]
    exact if_neg (by omega)

/-- A read only depends on the cells of the region it covers. -/
theorem readLE_congr {m m' : Nat → Nat} (a w : Nat)
    (h : ∀ j, a ≤ j → j < a + w → m j = m' j) :
    readLE m a w = readLE m' a w := by
  induction w generalizing a with
  | zero => rfl
  | succ w' ih =>
    simp only [readLE]
    rw [h a (Nat.le_refl a) (by omega), ih (a + 1) (fun j h1 h2 => h j (by omega) (by omega))]

/-- A `w`-byte little-endian read is below `256 ^ w`. -/
theorem readLE_lt (m : Nat → Nat) (a w : Nat) : readLE m a w < 256 ^ w := by
  induction w generalizing a with
  | zero => simp [readLE]
  | succ w' ih =>
    simp only [readLE, pow_succ]
    have h1 : m a % 256 < 256 := Nat.mod_lt _ (by omega)
    have h2 := ih (a + 1)
    calc m a % 256 + 256 * readLE m (a + 1) w' ≤ 255 + 256 * readLE m (a + 1) w' := by omega
    _ < 256 * (readLE m (a + 1) w' + 1) := by omega
    _ ≤ 256 * 256 ^ w' := by
        have : readLE m (a + 1) w' + 1 ≤ 256 ^ w' := h2
        exact Nat.mul_le_mul_left _ this
    _ = 256 ^ w' * 256 := by ring

/-- Reading back exactly what was written yields the value modulo `256 ^ w`. -/
theorem readLE_writeLE (m : Nat → Nat) (off w v : Nat) :
    readLE (writeLE m off w v) off w = v % 256 ^ w := by
  induction w generalizing m off v with
  | zero => simp [readLE, writeLE, Nat.mod_one]
  | succ w' ih =>
    simp only [readLE, writeLE]
    rw [writeLE_eq_of_lt _ _ _ _ _ (by omega)]
    simp only [upd, if_pos rfl]
    rw [ih]
    have hmul : (256:Nat) ^ (w' + 1) = 256 * 256 ^ w' := by ring
    rw [hmul, Nat.mod_mul]
    simp [Nat.mod_mod_of_dvd]

/-- Reads from a region that lies entirely below a later write are unchanged. -/
theorem readLE_writeLE_below (m : Nat → Nat) (a wa b wb v : Nat) (h : a + wa ≤ b) :
    readLE (writeLE m b wb v) a wa = readLE m a wa :=
  readLE_congr a wa fun j h1 h2 => writeLE_eq_of_lt _ _ _ _ _ (by omega)

/-- Reads from a region that lies entirely above a write are unchanged. -/
theorem readLE_writeLE_above (m : Nat → Nat) (a wa b wb v : Nat) (h : b + wb ≤ a) :
    readLE (writeLE m b wb v) a wa = readLE m a wa :=
  readLE_congr a wa fun j h1 h2 => writeLE_eq_of_ge _ _ _ _ _ (by omega)

/-- A successful `stack_push!` writes at `sp` and advances `sp` by `w`. -/
theorem stack_push_ok (w v : Nat) (s : VM) (h : s.sp + w ≤ MAX_STACK) :
    stack_push w v s =
      .ok ((), { s with stack := writeLE s.stack s.sp w v, sp := s.sp + w }) := by
  simp [stack_push, Nat.not_lt.mpr h]

/-- `stack_push!` overflows exactly when the stack ceiling is exceeded. -/
theorem stack_push_err (w v : Nat) (s : VM) (h : MAX_STACK < s.sp + w) :
    stack_push w v s = .error .StackOverflow := by
  simp [stack_push, h]

/-- A successful raw pop reads the top `w` bytes and retreats `sp`. -/
theorem raw_stack_pop_ok (w : Nat) (s : VM) (h : w ≤ s.sp) :
    raw_stack_pop w s = .ok (readLE s.stack (s.sp - w) w, { s with sp := s.sp - w }) := by
  simp [raw_stack_pop, Nat.not_lt.mpr h]

/-- A raw pop of an emptier stack than `w` bytes fails. -/
theorem raw_stack_pop_err (w : Nat) (s : VM) (h : s.sp < w) :
    raw_stack_pop w s = .error .StackAccessViolation := by
  simp [raw_stack_pop, h]

/-- A successful checked pop reads the top `w` bytes and retreats `sp`. -/
theorem stack_pop_ok (w : Nat) (s : VM) (h : s.bp + 16 + w ≤ s.sp) :
    stack_pop w s = .ok (readLE s.stack (s.sp - w) w, { s with sp := s.sp - w }) := by
  rw [stack_pop, if_neg (by omega)]
  exact raw_stack_pop_ok w s (by omega)

/-- The checked pop refuses to reach into the frame anchor. -/
theorem stack_pop_err (w : Nat) (s : VM) (h : s.sp < s.bp + 16 + w) :
    stack_pop w s = .error .StackAccessViolation := by
  simp [stack_pop, h]

/-- `n` successive checked pops succeed when they stay above the anchor. -/
theorem stack_popN_ok (w n : Nat) (s : VM) (h : n = 0 ∨ s.bp + 16 + w * n ≤ s.sp) :
    stack_popN w n s = .ok ((), { s with sp := s.sp - w * n }) := by
  induction n generalizing s with
  | zero => simp [stack_popN]
  | succ n' ih =>
    have hw : w * (n' + 1) = w * n' + w := by ring
    have hle : s.bp + 16 + w * (n' + 1) ≤ s.sp := h.resolve_left (by omega)
    rw [stack_popN, stack_pop_ok w s (by omega), bindE]
    rw [ih _ (by right; simp only; omega)]
    have heq : s.sp - w - w * n' = s.sp - w * (n' + 1) := by omega
    rw [heq]

/-- `n ≥ 1` checked pops fail when the block of `n` values would overlap the
frame anchor. -/
theorem stack_popN_err (w n : Nat) (s : VM) (h1 : 1 ≤ n)
    (h2 : s.sp < s.bp + 16 + w * n) :
    stack_popN w n s = .error .StackAccessViolation := by
  induction n generalizing s with
  | zero => omega
  | succ n' ih =>
    have hw : w * (n' + 1) = w * n' + w := by ring
    by_cases hc : s.sp < s.bp + 16 + w
    · rw [stack_popN, stack_pop_err w s hc, bindE]
    · rw [stack_popN, stack_pop_ok w s (by omega), bindE]
      have hn' : 1 ≤ n' := by
        rcases Nat.eq_zero_or_pos n' with h0 | h0
        · subst h0
          simp only [Nat.mul_zero, Nat.zero_add, Nat.mul_one] at hw h2
          omega
        · exact h0
      exact ih _ hn' (by show s.sp - w < s.bp + 16 + w * n'; omega)

/-- Inversion for a successful block of checked pops. -/
theorem stack_popN_inv (w n : Nat) (s s' : VM) (u : Unit)
    (h : stack_popN w n s = .ok (u, s')) :
    s' = { s with sp := s.sp - w * n } ∧ (n = 0 ∨ s.bp + 16 + w * n ≤ s.sp) := by
  rcases Nat.eq_zero_or_pos n with h0 | h0
  · subst h0
    simp only [stack_popN] at h
    cases h
    constructor
    · show s = { s with sp := s.sp - w * 0 }
      simp
    · exact Or.inl rfl
  · by_cases hc : s.bp + 16 + w * n ≤ s.sp
    · rw [stack_popN_ok w n s (Or.inr hc)] at h
      cases h
      exact ⟨rfl, Or.inr hc⟩
    · rw [stack_popN_err w n s h0 (by omega)] at h
      cases h

/-- `n` successive raw pops succeed when `sp` is at least `w * n`. -/
theorem raw_stack_popN_ok (w n : Nat) (s : VM) (h : w * n ≤ s.sp) :
    raw_stack_popN w n s = .ok ((), { s with sp := s.sp - w * n }) := by
  induction n generalizing s with
  | zero => simp [raw_stack_popN]
  | succ n' ih =>
    have hw : w * (n' + 1) = w * n' + w := by ring
    rw [raw_stack_popN, raw_stack_pop_ok w s (by omega), bindE]
    rw [ih _ (by simp only; omega)]
    have heq : s.sp - w - w * n' = s.sp - w * (n' + 1) := by omega
    rw [heq]

/-- Inversion for a successful block of raw pops. -/
theorem raw_stack_popN_inv (w n : Nat) (s s' : VM) (u : Unit)
    (h : raw_stack_popN w n s = .ok (u, s')) :
    s' = { s with sp := s.sp - w * n } := by
  induction n generalizing s with
  | zero =>
    simp only [raw_stack_popN] at h
    cases h
    simp
  | succ n' ih =>
    rw [raw_stack_popN] at h
    by_cases hc : s.sp < w
    · rw [raw_stack_pop_err w s hc] at h
      cases h
    · have hw : w * (n' + 1) = w * n' + w := by ring
      rw [raw_stack_pop_ok w s (by omega), bindE] at h
      have hs := ih _ h
      rw [hs]
      have heq : s.sp - w - w * n' = s.sp - w * (n' + 1) := by omega
      rw [heq]

/-- A successful anchored top read. -/
theorem stack_top_ok (w : Nat) (s : VM) (h : s.bp + 16 + w ≤ s.sp) :
    stack_top w s = .ok (readLE s.stack (s.sp - w) w, s) := by
  rw [stack_top, if_neg (by omega), raw_stack_top, if_neg (by omega)]

/-- The anchored top read refuses to reach into the frame anchor. -/
theorem stack_top_err (w : Nat) (s : VM) (h : s.sp < s.bp + 16 + w) :
    stack_top w s = .error .StackAccessViolation := by
  simp [stack_top, h]

/-- A successful in-bounds instruction fetch. -/
theorem next_prg_ok (w : Nat) (s : VM) (h : s.pc + w ≤ s.imageLen) :
    next_prg w s = .ok (readLE s.image s.pc w, { s with pc := s.pc + w }) := by
  simp [next_prg, Nat.not_lt.mpr h]

/-- An instruction fetch past the image end fails. -/
theorem next_prg_err (w : Nat) (s : VM) (h : s.imageLen < s.pc + w) :
    next_prg w s = .error .BytecodeAccessViolation := by
  simp [next_prg, h]

/-- A successful in-bounds pool read. -/
theorem next_pool_ok (w : Nat) (s : VM) (h : s.pp + w ≤ s.imageLen) :
    next_pool w s = .ok (readLE s.image s.pp w, { s with pp := s.pp + w }) := by
  simp [next_pool, Nat.not_lt.mpr h]

/-- A pool read past the image end fails. -/
theorem next_pool_err (w : Nat) (s : VM) (h : s.imageLen < s.pp + w) :
    next_pool w s = .error .BytecodeAccessViolation := by
  simp [next_pool, h]

/-- A successful signed-offset fetch. -/
theorem next_prg_i16_ok (s : VM) (h : s.pc + 2 ≤ s.imageLen) :
    next_prg_i16 s = .ok (i16val (readLE s.image s.pc 2), { s with pc := s.pc + 2 }) := by
  simp [next_prg_i16, Nat.not_lt.mpr h]

/-- A successful program-counter jump (targets up to and including the image
length are accepted by `jump_to!`). -/
theorem jump_prg_to_ok (t : Nat) (s : VM) (h : t ≤ s.imageLen) :
    jump_prg_to t s = .ok ((), { s with pc := t }) := by
  simp [jump_prg_to, Nat.not_lt.mpr h]

/-- A program-counter jump strictly past the image length fails. -/
theorem jump_prg_to_err (t : Nat) (s : VM) (h : s.imageLen < t) :
    jump_prg_to t s = .error .BytecodeAccessViolation := by
  simp [jump_prg_to, h]

/-- A successful stack-pointer jump. -/
theorem jump_stack_to_ok (t : Nat) (s : VM) (h : t ≤ MAX_STACK) :
    jump_stack_to t s = .ok ((), { s with sp := t }) := by
  simp [jump_stack_to, Nat.not_lt.mpr h]

/-- A stack-pointer jump past the ceiling fails. -/
theorem jump_stack_to_err (t : Nat) (s : VM) (h : MAX_STACK < t) :
    jump_stack_to t s = .error .StackAccessViolation := by
  simp [jump_stack_to, h]

/-- A successful pool-cursor jump. -/
theorem jump_pp_ok (t : Nat) (s : VM) (h : t ≤ s.imageLen) :
    jump_pp t s = .ok ((), { s with pp := t }) := by
  simp [jump_pp, Nat.not_lt.mpr h]

/-- A successful variable-table distance computation, with the slot in range. -/
theorem var_table_diff_ok (w i : Nat) (s : VM)
    (h : s.bp + 16 + (4 * i + w) ≤ s.sp) :
    var_table_diff w i s = .ok (s.sp - s.bp - 16 - i * 4, s) := by
  rw [var_table_diff, if_neg (by omega)]
  simp only
  rw [if_neg (by omega)]

/-- The variable-table distance fails when the slot access leaves the frame. -/
theorem var_table_diff_err (w i : Nat) (s : VM)
    (h : s.sp < s.bp + 16 + (4 * i + w)) :
    var_table_diff w i s = .error .StackAccessViolation := by
  by_cases hc : s.sp < s.bp + 16
  · simp [var_table_diff, hc]
  · rw [var_table_diff, if_neg hc]
    simp only
    rw [if_pos (by omega)]

/-- Inversion for a successful argument re-push: `sp` advances by four bytes
per argument and all reads below the old `sp` are unchanged. -/
theorem push_args_inv (l : List Nat) (s s' : VM) (u : Unit)
    (h : push_args l s = .ok (u, s')) :
    s'.sp = s.sp + 4 * l.length ∧
      s'.bp = s.bp ∧ s'.pc = s.pc ∧ s'.pp = s.pp ∧ s'.image = s.image ∧
      s'.imageLen = s.imageLen ∧ s'.heap = s.heap ∧ s'.allocPtr = s.allocPtr ∧
      (∀ a wa, a + wa ≤ s.sp → readLE s'.stack a wa = readLE s.stack a wa) := by
  induction l generalizing s with
  | nil =>
    simp only [push_args] at h
    cases h
    refine ⟨by simp, rfl, rfl, rfl, rfl, rfl, rfl, rfl, ?_⟩
    intro a wa _
    rfl
  | cons x rest ih =>
    rw [push_args] at h
    by_cases hc : MAX_STACK < s.sp + 4
    · rw [stack_push_err 4 x s hc, bindE] at h
      cases h
    · rw [stack_push_ok 4 x s (by omega), bindE] at h
      obtain ⟨h1, h3, h4, h5, h6, h7, h8, h9, h10⟩ := ih _ h
      refine ⟨by simp at h1 ⊢; omega, h3, h4, h5, h6, h7, h8, h9, ?_⟩
      intro a wa hwa
      rw [h10 a wa (by simp; omega)]
      exact readLE_writeLE_below _ _ _ _ _ _ hwa

/-- The all-zero interpreter state, used to build concrete test states. -/
def zeroVM : VM :=
  { image := fun _ => 0, imageLen := 0, stack := fun _ => 0, heap := fun _ => 0,
    allocPtr := 0, sp := 0, bp := 0, pc := 0, pp := 0 }

/-- Whether a stateful operation finished without leaving the loop. -/
def exOk {α : Type} (r : Except ExitStatus (α × VM)) : Bool :=
  match r with
  | .ok _ => true
  | .error _ => false

/-- Whether a loop iteration finished without leaving the loop. -/
def stepOk (r : Except ExitStatus VM) : Bool :=
  match r with
  | .ok _ => true
  | .error _ => false

/-- The state resulting from a successful loop iteration (default otherwise). -/
def resState (r : Except ExitStatus VM) (d : VM) : VM :=
  match r with
  | .ok s => s
  | .error _ => d

/-- The array index operand of `load_arr!` (topmost eight stack bytes). -/
def arrIdx (s : VM) : Nat := readLE s.stack (s.sp - 8) 8

/-- The array address operand of `load_arr!` (below the index). -/
def arrAddr (s : VM) : Nat := readLE s.stack (s.sp - 16) 8

/-- The bounds-check value `(i + 1) * sizeof(T)` as the source computes it,
with `usize` wraparound. -/
def arrChk (w i : Nat) : Nat := (i + 1) % 2 ^ 64 * w % 2 ^ 64

/-- Result state of a successful array element load of width `w`. -/
def loadArrRes (w : Nat) (s : VM) : VM :=
  { s with stack := writeLE s.stack (s.sp - 16) w
             (readLE s.heap (arrAddr s + 8 + arrIdx s * w) w),
           sp := s.sp - 16 + w }

/-- The value operand of `store_arr!` (popped with width `pw`). -/
def stVal (pw : Nat) (s : VM) : Nat := readLE s.stack (s.sp - pw) pw

/-- The array index operand of `store_arr!`. -/
def stIdx (pw : Nat) (s : VM) : Nat := readLE s.stack (s.sp - pw - 8) 8

/-- The array address operand of `store_arr!`. -/
def stAddr (pw : Nat) (s : VM) : Nat := readLE s.stack (s.sp - pw - 16) 8

/-- Result state of a successful array element store of width `w` from a
popped value of width `pw`. -/
def storeArrRes (w pw : Nat) (s : VM) : VM :=
  { s with heap := writeLE s.heap (stAddr pw s + 8 + stIdx pw s * w) w
             (stVal pw s % 256 ^ w),
           sp := s.sp - pw - 16 }

/-- A successful array load pushes element `arr_i` of the payload. -/
theorem load_arr_ok (w : Nat) (s : VM) (hsp : s.bp + 32 ≤ s.sp)
    (hmax : s.sp ≤ MAX_STACK) (hw : 0 < w) (hw8 : w ≤ 8)
    (hb : arrChk w (arrIdx s) ≤ readLE s.heap (arrAddr s) 8) :
    load_arr w s = .ok ((), loadArrRes w s) := by
  rw [load_arr, stack_pop_ok 8 s (by omega), bindE,
    stack_pop_ok 8 _ (by show s.bp + 16 + 8 ≤ s.sp - 8; omega), bindE]
  show (if _ > _ then _ else _) = _
  rw [if_neg (by show ¬ _ > _; exact Nat.not_lt.mpr hb)]
  rw [stack_push_ok w _ _ (by show s.sp - 8 - 8 + w ≤ MAX_STACK; omega)]
  show _ = .ok ((), loadArrRes w s)
  rw [loadArrRes]
  have h1 : s.sp - 8 - 8 = s.sp - 16 := by omega
  have h2 : s.sp - 16 + w = s.sp - 8 - 8 + w := by omega
  rw [arrIdx, arrAddr, h1, h2]

/-- An array load whose wrapped bound check fails faults with
`ArrayAccessViolation`. -/
theorem load_arr_err (w : Nat) (s : VM) (hsp : s.bp + 32 ≤ s.sp)
    (hb : readLE s.heap (arrAddr s) 8 < arrChk w (arrIdx s)) :
    load_arr w s = .error .ArrayAccessViolation := by
  rw [load_arr, stack_pop_ok 8 s (by omega), bindE,
    stack_pop_ok 8 _ (by show s.bp + 16 + 8 ≤ s.sp - 8; omega), bindE]
  show (if _ > _ then _ else _) = _
  rw [if_pos]
  show readLE s.heap (arrAddr s) 8 < arrChk w (arrIdx s)
  exact hb

/-- A successful array store writes element `arr_i` of the payload. -/
theorem store_arr_ok (w pw : Nat) (s : VM) (hsp : s.bp + 32 + pw ≤ s.sp)
    (hb : arrChk w (stIdx pw s) ≤ readLE s.heap (stAddr pw s) 8) :
    store_arr w pw s = .ok ((), storeArrRes w pw s) := by
  rw [store_arr, stack_pop_ok pw s (by omega), bindE,
    stack_pop_ok 8 _ (by show s.bp + 16 + 8 ≤ s.sp - pw; omega), bindE,
    stack_pop_ok 8 _ (by show s.bp + 16 + 8 ≤ s.sp - pw - 8; omega), bindE]
  show (if _ > _ then _ else _) = _
  rw [if_neg (by show ¬ _ > _; exact Nat.not_lt.mpr hb)]
  show _ = .ok ((), storeArrRes w pw s)
  rw [storeArrRes, stVal, stIdx, stAddr]
  have h1 : s.sp - pw - 8 - 8 = s.sp - pw - 16 := by omega
  rw [h1]

/-- An array store whose wrapped bound check fails faults with
`ArrayAccessViolation`. -/
theorem store_arr_err (w pw : Nat) (s : VM) (hsp : s.bp + 32 + pw ≤ s.sp)
    (hb : readLE s.heap (stAddr pw s) 8 < arrChk w (stIdx pw s)) :
    store_arr w pw s = .error .ArrayAccessViolation := by
  rw [store_arr, stack_pop_ok pw s (by omega), bindE,
    stack_pop_ok 8 _ (by show s.bp + 16 + 8 ≤ s.sp - pw; omega), bindE,
    stack_pop_ok 8 _ (by show s.bp + 16 + 8 ≤ s.sp - pw - 8; omega), bindE]
  show (if _ > _ then _ else _) = _
  rw [if_pos]
  show readLE s.heap (stAddr pw s) 8 < arrChk w (stIdx pw s)
  exact hb

/-- Result state of a successful binary arithmetic opcode: both operands
popped, the result pushed in their place. -/
def calcRes (w v : Nat) (s : VM) : VM :=
  { s with stack := writeLE s.stack (s.sp - w - w) w v, sp := s.sp - w - w + w }

/-- `calc!` with a zero right operand and divide-by-zero checking requested
faults with `DivideByZero`. -/
theorem calcBin_div_zero (w : Nat) (f : Nat → Nat → Nat × Bool) (s : VM)
    (hsp : s.bp + 16 + w + w ≤ s.sp)
    (hb : readLE s.stack (s.sp - w) w = 0) :
    calcBin w f true s = .error .DivideByZero := by
  rw [calcBin, stack_pop_ok w s (by omega), bindE,
    stack_pop_ok w _ (by show s.bp + 16 + w ≤ s.sp - w; omega), bindE]
  rw [if_pos ⟨rfl, hb⟩]

/-- `calc!` with an overflowing operation faults with `ArithmeticOverflow`. -/
theorem calcBin_ov (w : Nat) (f : Nat → Nat → Nat × Bool) (c : Bool) (s : VM)
    (hsp : s.bp + 16 + w + w ≤ s.sp)
    (hc : ¬(c = true ∧ readLE s.stack (s.sp - w) w = 0))
    (hov : (f (readLE s.stack (s.sp - w - w) w) (readLE s.stack (s.sp - w) w)).2 = true) :
    calcBin w f c s = .error .ArithmeticOverflow := by
  rw [calcBin, stack_pop_ok w s (by omega), bindE,
    stack_pop_ok w _ (by show s.bp + 16 + w ≤ s.sp - w; omega), bindE]
  rw [if_neg hc]
  simp only [hov, if_true]

/-- A non-faulting `calc!` pushes the operation result over the operands. -/
theorem calcBin_ok (w : Nat) (f : Nat → Nat → Nat × Bool) (c : Bool) (s : VM)
    (hsp : s.bp + 16 + w + w ≤ s.sp) (hmax : s.sp ≤ MAX_STACK)
    (hc : ¬(c = true ∧ readLE s.stack (s.sp - w) w = 0))
    (hov : (f (readLE s.stack (s.sp - w - w) w) (readLE s.stack (s.sp - w) w)).2 = false) :
    calcBin w f c s =
      .ok ((), calcRes w (f (readLE s.stack (s.sp - w - w) w) (readLE s.stack (s.sp - w) w)).1 s) := by
  rw [calcBin, stack_pop_ok w s (by omega), bindE,
    stack_pop_ok w _ (by show s.bp + 16 + w ≤ s.sp - w; omega), bindE]
  rw [if_neg hc]
  simp only [hov, if_false, Bool.false_eq_true]
  rw [stack_push_ok w _ _ (by show s.sp - w - w + w ≤ MAX_STACK; omega)]
  rfl

/-- `stack_push_arr!` succeeds for every length immediate once the immediate
is readable and the address push fits. -/
def apushRes (w : Nat) (s : VM) : VM :=
  { s with pc := s.pc + 8,
           heap := writeLE s.heap s.allocPtr 8 (readLE s.image s.pc 8 * w % 2 ^ 64),
           allocPtr := s.allocPtr + 8 + readLE s.image s.pc 8 * w % 2 ^ 64,
           stack := writeLE s.stack s.sp 8 s.allocPtr,
           sp := s.sp + 8 }

/-- A `*apush` with readable immediate and a fitting address push always
succeeds, whatever the requested element count is. -/
theorem stack_push_arr_ok (w : Nat) (s : VM) (hpc : s.pc + 8 ≤ s.imageLen)
    (hsp : s.sp + 8 ≤ MAX_STACK) :
    stack_push_arr w s = .ok ((), apushRes w s) := by
  rw [stack_push_arr, next_prg_ok 8 s hpc, bindE]
  show stack_push 8 _ _ = _
  rw [stack_push_ok 8 _ _ (by show s.sp + 8 ≤ MAX_STACK; omega)]
  rfl

/-- C7: for every width `T ∈ {1,2,4,8}`, a push halts with `StackOverflow`
exactly when `sp + sizeof(T) > MAX_STACK` and otherwise writes the value at
offset `sp` and advances `sp` by `sizeof(T)`; a safe pop halts with
`StackAccessViolation` exactly when `sp < bp + 16 + sizeof(T)` and otherwise
returns the top `sizeof(T)` bytes and retreats `sp` by `sizeof(T)`. -/
theorem c7_push_pop_contract (w v : Nat) (s : VM)
    (hw : w = 1 ∨ w = 2 ∨ w = 4 ∨ w = 8) :
    (MAX_STACK < s.sp + w → stack_push w v s = .error .StackOverflow) ∧
    (s.sp + w ≤ MAX_STACK →
      stack_push w v s =
        .ok ((), { s with stack := writeLE s.stack s.sp w v, sp := s.sp + w })) ∧
    (s.sp < s.bp + 16 + w → stack_pop w s = .error .StackAccessViolation) ∧
    (s.bp + 16 + w ≤ s.sp →
      stack_pop w s = .ok (readLE s.stack (s.sp - w) w, { s with sp := s.sp - w })) := by
  exact ⟨fun h => stack_push_err w v s h, fun h => stack_push_ok w v s h,
    fun h => stack_pop_err w s h, fun h => stack_pop_ok w s h⟩

/-- Concrete state with one `u32` on top of the entry frame. -/
def c7s : VM := { zeroVM with sp := 24, stack := writeLE (fun _ => 0) 20 4 5 }

/-- Witness for C7 at width 4 on a concrete state. -/
theorem c7_push_pop_contract_witness :
    ((4 : Nat) = 1 ∨ (4 : Nat) = 2 ∨ (4 : Nat) = 4 ∨ (4 : Nat) = 8) ∧
    stack_pop 4 c7s = .ok (readLE c7s.stack (c7s.sp - 4) 4, { c7s with sp := c7s.sp - 4 }) ∧
    readLE c7s.stack (c7s.sp - 4) 4 = 5 :=
  ⟨by decide, (c7_push_pop_contract 4 9 c7s (by decide)).2.2.2 (by decide), by decide⟩

/-- C6: for `u32`/`u64` operands `a` (popped second) and `b` (popped first),
`idiv`/`ldiv` push `a / b` for `b ≠ 0` and fault with `DivideByZero` for
`b = 0`; the add/sub/mul opcodes push the exact result when it fits in the
width and fault with `ArithmeticOverflow` when it wraps. -/
theorem c6_checked_arith (w : Nat) (s : VM) (a b : Nat) (hw : w = 4 ∨ w = 8)
    (hsp : s.bp + 16 + w + w ≤ s.sp) (hmax : s.sp ≤ MAX_STACK)
    (ha : readLE s.stack (s.sp - w - w) w = a)
    (hb : readLE s.stack (s.sp - w) w = b) :
    (b = 0 → calcBin w (ovDiv w) true s = .error .DivideByZero) ∧
    (b ≠ 0 → calcBin w (ovDiv w) true s = .ok ((), calcRes w (a / b) s)) ∧
    (a + b < 256 ^ w → calcBin w (ovAdd w) false s = .ok ((), calcRes w (a + b) s)) ∧
    (256 ^ w ≤ a + b → calcBin w (ovAdd w) false s = .error .ArithmeticOverflow) ∧
    (b ≤ a → calcBin w (ovSub w) false s = .ok ((), calcRes w (a - b) s)) ∧
    (a < b → calcBin w (ovSub w) false s = .error .ArithmeticOverflow) ∧
    (a * b < 256 ^ w → calcBin w (ovMul w) false s = .ok ((), calcRes w (a * b) s)) ∧
    (256 ^ w ≤ a * b → calcBin w (ovMul w) false s = .error .ArithmeticOverflow) := by
  subst ha hb
  refine ⟨fun h0 => calcBin_div_zero w _ s hsp h0, fun h0 => ?_, fun h0 => ?_,
    fun h0 => ?_, fun h0 => ?_, fun h0 => ?_, fun h0 => ?_, fun h0 => ?_⟩
  · rw [calcBin_ok w _ true s hsp hmax (by simp [h0]) (by simp [ovDiv])]
    rfl
  · rw [calcBin_ok w _ false s hsp hmax (by simp) (by simp [ovAdd]; omega)]
    simp only [ovAdd]
    rw [Nat.mod_eq_of_lt h0]
  · exact calcBin_ov w _ false s hsp (by simp) (by simp [ovAdd]; omega)
  · rw [calcBin_ok w _ false s hsp hmax (by simp) (by simp [ovSub]; omega)]
    simp only [ovSub]
    rw [if_pos h0]
  · exact calcBin_ov w _ false s hsp (by simp) (by simp [ovSub]; omega)
  · rw [calcBin_ok w _ false s hsp hmax (by simp) (by simp [ovMul]; omega)]
    simp only [ovMul]
    rw [Nat.mod_eq_of_lt h0]
  · exact calcBin_ov w _ false s hsp (by simp) (by simp [ovMul]; omega)

/-- Concrete state with two `u32` operands `a = 10`, `b = 3` on the stack. -/
def c6s : VM :=
  { zeroVM with sp := 24, stack := writeLE (writeLE (fun _ => 0) 16 4 10) 20 4 3 }

/-- Witness for C6: `idiv` on `a = 10`, `b = 3` pushes the quotient 3. -/
theorem c6_checked_arith_witness :
    ((4 : Nat) = 4 ∨ (4 : Nat) = 8) ∧
    calcBin 4 (ovDiv 4) true c6s = .ok ((), calcRes 4 (10 / 3) c6s) ∧
    readLE (calcRes 4 (10 / 3) c6s).stack 16 4 = 3 :=
  ⟨Or.inl rfl,
   (c6_checked_arith 4 c6s 10 3 (Or.inl rfl) (by decide) (by decide) (by decide)
     (by decide)).2.1 (by decide),
   by decide⟩

/-- C5 (amended): the array element access bound check is computed with
`usize` wraparound, `((i + 1) mod 2^64) * s mod 2^64 > n`, and the access
faults with `ArrayAccessViolation` exactly when that wrapped value exceeds
the stored `size_in_bytes`; when it does not, element `i` of the payload is
read (and pushed) or written. -/
theorem c5_array_bounds_amended :
    (∀ w s, (w = 1 ∨ w = 2 ∨ w = 4 ∨ w = 8) → s.bp + 32 ≤ s.sp → s.sp ≤ MAX_STACK →
      (load_arr w s = .error .ArrayAccessViolation ↔
        readLE s.heap (arrAddr s) 8 < arrChk w (arrIdx s)) ∧
      (arrChk w (arrIdx s) ≤ readLE s.heap (arrAddr s) 8 →
        load_arr w s = .ok ((), loadArrRes w s))) ∧
    (∀ w pw s, ((w, pw) = (1, 4) ∨ (w, pw) = (2, 4) ∨ (w, pw) = (4, 4) ∨ (w, pw) = (8, 8)) →
      s.bp + 32 + pw ≤ s.sp →
      (store_arr w pw s = .error .ArrayAccessViolation ↔
        readLE s.heap (stAddr pw s) 8 < arrChk w (stIdx pw s)) ∧
      (arrChk w (stIdx pw s) ≤ readLE s.heap (stAddr pw s) 8 →
        store_arr w pw s = .ok ((), storeArrRes w pw s))) := by
  constructor
  · intro w s hw hsp hmax
    have hwpos : 0 < w := by rcases hw with h | h | h | h <;> omega
    have hw8 : w ≤ 8 := by rcases hw with h | h | h | h <;> omega
    constructor
    · constructor
      · intro herr
        by_contra hc
        rw [load_arr_ok w s hsp hmax hwpos hw8 (by omega)] at herr
        cases herr
      · exact fun h => load_arr_err w s hsp h
    · exact fun h => load_arr_ok w s hsp hmax hwpos hw8 h
  · intro w pw s hw hsp
    constructor
    · constructor
      · intro herr
        by_contra hc
        rw [store_arr_ok w pw s (by omega) (by omega)] at herr
        cases herr
      · exact fun h => store_arr_err w pw s (by omega) h
    · exact fun h => store_arr_ok w pw s (by omega) h

/-- Concrete state holding array address 0 and index `2^64 - 1` for a byte
array whose header says 0 bytes. -/
def c5s : VM :=
  { zeroVM with
      sp := 32
      stack := writeLE (writeLE (fun _ => 0) 16 8 0) 24 8 (2 ^ 64 - 1) }

/-- Counterexample to C5 as stated: with index `i = 2^64 - 1` and element
size 1 the exact product `(i + 1) * 1` exceeds the stored size 0, yet
`baload` does not fault, because the source computes the bound with
wrapping `usize` arithmetic and gets 0. -/
theorem c5_array_bounds_counterexample :
    (arrIdx c5s + 1) * 1 > readLE c5s.heap (arrAddr c5s) 8 ∧
    exOk (load_arr 1 c5s) = true := by
  constructor
  · decide
  · decide

/-- Witness for C5 (amended) on an in-bounds `iaload`. -/
def c5w : VM :=
  { zeroVM with
      sp := 32
      stack := writeLE (writeLE (fun _ => 0) 16 8 64) 24 8 2
      heap := writeLE (fun _ => 0) 64 8 16 }

/-- Witness for C5 (amended): a concrete in-bounds 4-byte load succeeds. -/
theorem c5_array_bounds_amended_witness :
    ((4 : Nat) = 1 ∨ (4 : Nat) = 2 ∨ (4 : Nat) = 4 ∨ (4 : Nat) = 8) ∧
    load_arr 4 c5w = .ok ((), loadArrRes 4 c5w) :=
  ⟨by decide,
   (c5_array_bounds_amended.1 4 c5w (by decide) (by decide) (by decide)).2 (by decide)⟩

/-- C9 (amended): once the 8-byte length immediate is readable and the 8-byte
address push fits below the stack ceiling, the array allocation opcodes never
fault, whatever the element count `n` (read as an immediate of the
instruction stream): the stored `size_in_bytes` header is
`n * sizeof(element) mod 2^64` with silent wraparound and the buffer address
is pushed. -/
theorem c9_apush_amended (w : Nat) (s : VM) (hw : w = 1 ∨ w = 2 ∨ w = 4 ∨ w = 8)
    (hpc : s.pc + 8 ≤ s.imageLen) (hsp : s.sp + 8 ≤ MAX_STACK) :
    stack_push_arr w s = .ok ((), apushRes w s) ∧
    readLE (apushRes w s).heap s.allocPtr 8 = readLE s.image s.pc 8 * w % 2 ^ 64 ∧
    readLE (apushRes w s).stack s.sp 8 = s.allocPtr % 2 ^ 64 ∧
    (apushRes w s).sp = s.sp + 8 ∧ (apushRes w s).pc = s.pc + 8 := by
  refine ⟨stack_push_arr_ok w s hpc hsp, ?_, ?_, rfl, rfl⟩
  · show readLE (writeLE s.heap s.allocPtr 8 _) s.allocPtr 8 = _
    rw [readLE_writeLE]
    have h : (256 : Nat) ^ 8 = 2 ^ 64 := by norm_num
    rw [h, Nat.mod_mod_of_dvd _ dvd_rfl]
  · show readLE (writeLE s.stack s.sp 8 _) s.sp 8 = _
    rw [readLE_writeLE]
    norm_num

/-- Concrete near-full-stack state with a readable length immediate. -/
def c9s : VM := { zeroVM with imageLen := 8, sp := 1020 }

/-- Counterexample to C9 as stated: `lapush` *can* fault — with the stack
1020 bytes full the address push overflows the 1024-byte ceiling and the
interpreter halts with `StackOverflow` instead of pushing the address. -/
theorem c9_apush_counterexample :
    stack_push_arr 8 c9s = .error .StackOverflow := by
  rfl

/-- Concrete state whose `lapush` immediate is `n = 2^61` elements. -/
def c9w : VM :=
  { zeroVM with
      imageLen := 8
      image := writeLE (fun _ => 0) 0 8 (2 ^ 61)
      allocPtr := 5000 }

/-- Witness for C9 (amended): `lapush` with `n = 2^61` succeeds and records a
wrapped `size_in_bytes` header of `2^61 * 8 mod 2^64 = 0`. -/
theorem c9_apush_amended_witness :
    ((8 : Nat) = 1 ∨ (8 : Nat) = 2 ∨ (8 : Nat) = 4 ∨ (8 : Nat) = 8) ∧
    stack_push_arr 8 c9w = .ok ((), apushRes 8 c9w) ∧
    readLE (apushRes 8 c9w).heap c9w.allocPtr 8 = 0 :=
  ⟨by decide,
   (c9_apush_amended 8 c9w (by decide) (by decide) (by decide)).1,
   by decide⟩

/-- C10: a successful array element load pushes exactly the element's own
width — `sp` moves from `sp - 16` (after the two 8-byte pops) up by
`sizeof(element)` only, with no widening of byte or short elements. -/
theorem c10_aload_width (w : Nat) (s : VM) (hw : w = 1 ∨ w = 2 ∨ w = 4 ∨ w = 8)
    (hsp : s.bp + 32 ≤ s.sp) (hmax : s.sp ≤ MAX_STACK)
    (hb : arrChk w (arrIdx s) ≤ readLE s.heap (arrAddr s) 8) :
    load_arr w s = .ok ((), loadArrRes w s) ∧
    (loadArrRes w s).sp + 16 = s.sp + w ∧
    readLE (loadArrRes w s).stack (s.sp - 16) w =
      readLE s.heap (arrAddr s + 8 + arrIdx s * w) w := by
  have hwpos : 0 < w := by rcases hw with h | h | h | h <;> omega
  have hw8 : w ≤ 8 := by rcases hw with h | h | h | h <;> omega
  refine ⟨load_arr_ok w s hsp hmax hwpos hw8 hb, by show s.sp - 16 + w + 16 = s.sp + w; omega, ?_⟩
  show readLE (writeLE s.stack (s.sp - 16) w _) (s.sp - 16) w = _
  rw [readLE_writeLE, Nat.mod_eq_of_lt (readLE_lt _ _ _)]

/-- Concrete state for a `baload` of element 1 (value `0xAB = 171`) of an
8-byte array at heap address 200. -/
def c10w : VM :=
  { zeroVM with
      sp := 40
      bp := 8
      stack := writeLE (writeLE (fun _ => 0) 24 8 200) 32 8 1
      heap := writeLE (writeLE (fun _ => 0) 200 8 8) 209 1 171 }

/-- Witness for C10: the `baload` pushes a single byte, `sp` ends at
`40 - 16 + 1 = 25`, and the byte read back is `0xAB`, not a widened `u32`. -/
theorem c10_aload_width_witness :
    ((1 : Nat) = 1 ∨ (1 : Nat) = 2 ∨ (1 : Nat) = 4 ∨ (1 : Nat) = 8) ∧
    load_arr 1 c10w = .ok ((), loadArrRes 1 c10w) ∧
    (loadArrRes 1 c10w).sp = 25 ∧
    readLE (loadArrRes 1 c10w).stack 24 1 = 171 :=
  ⟨by decide,
   (c10_aload_width 1 c10w (by decide) (by decide) (by decide) (by decide)).1,
   by decide, by decide⟩

/-- Reduction of the sequencing on a success. -/
theorem bindE_ok {α β : Type} (p : α × VM) (f : α → VM → Except ExitStatus (β × VM)) :
    bindE (.ok p) f = f p.1 p.2 := rfl

/-- Reduction of the sequencing on a fault. -/
theorem bindE_err {α β : Type} (e : ExitStatus) (f : α → VM → Except ExitStatus (β × VM)) :
    bindE (.error e) f = .error e := rfl

/-- Reduction of the unit-dropping wrapper on a success. -/
theorem toStep_ok (p : Unit × VM) : toStep (.ok p) = .ok p.2 := rfl

/-- Reduction of the unit-dropping wrapper on a fault. -/
theorem toStep_err (e : ExitStatus) : toStep (.error e) = .error e := rfl

/-- A one-byte read is the cell modulo 256. -/
theorem readLE_one (m : Nat → Nat) (a : Nat) : readLE m a 1 = m a % 256 := by
  simp [readLE]

/-- Inversion of a successful loop iteration into the opcode fetch and the
dispatch on the fetched byte. -/
theorem step_inv (s s' : VM) (h : step s = .ok s') :
    s.pc + 1 ≤ s.imageLen ∧
    execOp (s.image s.pc % 256) { s with pc := s.pc + 1 } = .ok s' := by
  rw [step] at h
  by_cases hc : s.pc + 1 ≤ s.imageLen
  · rw [next_prg_ok 1 s hc] at h
    refine ⟨hc, ?_⟩
    rw [← readLE_one s.image s.pc]
    exact h
  · rw [next_prg_err 1 s (by omega)] at h
    cases h

/-- The fetch-and-dispatch shape of a loop iteration when the fetch is in
bounds. -/
theorem step_eq (s : VM) (hc : s.pc + 1 ≤ s.imageLen) :
    step s = execOp (s.image s.pc % 256) { s with pc := s.pc + 1 } := by
  rw [step, next_prg_ok 1 s hc, readLE_one]

/-- C4 (amended): the `goto` branch target is the `pc` after the consumed
`i16` offset plus the sign-extended offset; the interpreter halts with
`BytecodeAccessViolation` exactly when the target is negative or strictly
greater than `IMAGE_LEN`, and otherwise `pc` becomes the target (the target
`IMAGE_LEN` itself is accepted). -/
theorem c4_goto_amended (s : VM) (h46 : s.image s.pc = 46)
    (hoff : s.pc + 3 ≤ s.imageLen) :
    ((((s.pc + 3 : Nat) : Int) + i16val (readLE s.image (s.pc + 1) 2) < 0 ∨
      (s.imageLen : Int) < ((s.pc + 3 : Nat) : Int) + i16val (readLE s.image (s.pc + 1) 2)) →
      step s = .error .BytecodeAccessViolation) ∧
    (0 ≤ ((s.pc + 3 : Nat) : Int) + i16val (readLE s.image (s.pc + 1) 2) →
      ((s.pc + 3 : Nat) : Int) + i16val (readLE s.image (s.pc + 1) 2) ≤ (s.imageLen : Int) →
      step s = .ok { s with
        pc := (((s.pc + 3 : Nat) : Int) + i16val (readLE s.image (s.pc + 1) 2)).toNat }) := by
  rw [step_eq s (by omega), h46]
  have hexec : execOp (46 % 256) { s with pc := s.pc + 1 } =
      toStep (goto_m { s with pc := s.pc + 1 }) := rfl
  rw [hexec, goto_m, next_prg_i16_ok _ (by show s.pc + 1 + 2 ≤ s.imageLen; omega), bindE_ok]
  show _ ∧ _
  have hpc3 : s.pc + 1 + 2 = s.pc + 3 := by omega
  constructor
  · intro hout
    rcases hout with hneg | hbig
    · rw [if_pos (by simp only; rw [hpc3]; exact_mod_cast hneg)]
      rfl
    · rw [if_neg (by simp only; rw [hpc3]; omega)]
      rw [jump_prg_to_err _ _ (by show (_ : Nat) < _; simp only; rw [hpc3]; omega)]
      rfl
  · intro h1 h2
    rw [if_neg (by simp only; rw [hpc3]; omega)]
    rw [jump_prg_to_ok _ _ (by show (_ : Nat) ≤ _; simp only; rw [hpc3]; omega),
      toStep_ok, hpc3]

/-- Concrete image whose `goto` at `pc = 20` has offset 38, so the branch
target is exactly `IMAGE_LEN = 61`. -/
def c4s : VM :=
  { zeroVM with
      image := upd (writeLE (fun _ => 0) 21 2 38) 20 46
      imageLen := 61
      pc := 20 }

/-- Counterexample to C4 as stated: the branch target equals `IMAGE_LEN`,
which lies outside `[0, IMAGE_LEN)`, yet `goto` does not fault — `jump_to!`
only rejects targets strictly greater than the image length, so `pc` becomes
`IMAGE_LEN`. -/
theorem c4_goto_counterexample :
    ((c4s.imageLen : Int) ≤ ((c4s.pc + 3 : Nat) : Int) + i16val (readLE c4s.image (c4s.pc + 1) 2)) ∧
    step c4s = .ok { c4s with pc := c4s.imageLen } :=
  ⟨by decide, rfl⟩

/-- Concrete image whose `goto` at `pc = 20` has offset 7 (target 30). -/
def c4s2 : VM :=
  { zeroVM with
      image := upd (writeLE (fun _ => 0) 21 2 7) 20 46
      imageLen := 61
      pc := 20 }

/-- Witness for C4 (amended): the in-range branch to 30 is taken. -/
theorem c4_goto_amended_witness :
    step c4s2 = .ok { c4s2 with
      pc := (((c4s2.pc + 3 : Nat) : Int) + i16val (readLE c4s2.image (c4s2.pc + 1) 2)).toNat } ∧
    (((c4s2.pc + 3 : Nat) : Int) + i16val (readLE c4s2.image (c4s2.pc + 1) 2)).toNat = 30 :=
  ⟨(c4_goto_amended c4s2 (by decide) (by decide)).2 (by decide) (by decide), by decide⟩

/-- A pool-cursor jump past the image length fails. -/
theorem jump_pp_err (t : Nat) (s : VM) (h : s.imageLen < t) :
    jump_pp t s = .error .BytecodeAccessViolation := by
  simp [jump_pp, h]

/-- Slot address in the pool for a given invoke pool index (with `usize`
wraparound), relative to a state whose `pc` rests on the `u64` immediate. -/
def pInvokeSlot (s : VM) : Nat := (POOL_OFFSET + readLE s.image s.pc 8 * 8) % 2 ^ 64

/-- Address of the function descriptor resolved through the pool. -/
def pInvokeVA (s : VM) : Nat := readLE s.image (pInvokeSlot s) 8

/-- `start_addr` field of the resolved function descriptor. -/
def pInvokeStart (s : VM) : Nat := readLE s.image (pInvokeVA s) 8

/-- `var_len` field of the resolved function descriptor. -/
def pInvokeVarLen (s : VM) : Nat := readLE s.image (pInvokeVA s + 8) 2

/-- `arg_len` field of the resolved function descriptor. -/
def pInvokeArgLen (s : VM) : Nat := readLE s.image (pInvokeVA s + 10) 1

/-- A successful `jump_pool_to!` lands the pool cursor on the descriptor. -/
theorem jump_pool_to_ok (pool_i : Nat) (s : VM)
    (h1 : (POOL_OFFSET + pool_i * 8) % 2 ^ 64 + 8 ≤ s.imageLen)
    (h2 : readLE s.image ((POOL_OFFSET + pool_i * 8) % 2 ^ 64) 8 ≤ s.imageLen) :
    jump_pool_to pool_i s =
      .ok ((), { s with pp := readLE s.image ((POOL_OFFSET + pool_i * 8) % 2 ^ 64) 8 }) := by
  rw [jump_pool_to, jump_pp_ok _ _ (by omega), bindE_ok]
  rw [next_pool_ok 8 _ (by show (POOL_OFFSET + pool_i * 8) % 2 ^ 64 + 8 ≤ s.imageLen; exact h1)]
  simp only [bindE_ok]
  rw [jump_pp_ok _ _ (by show readLE s.image ((POOL_OFFSET + pool_i * 8) % 2 ^ 64) 8 ≤ s.imageLen; exact h2)]

/-- Inversion for a successful `jump_pool_to!`. -/
theorem jump_pool_to_inv (pool_i : Nat) (s s' : VM) (u : Unit)
    (h : jump_pool_to pool_i s = .ok (u, s')) :
    (POOL_OFFSET + pool_i * 8) % 2 ^ 64 + 8 ≤ s.imageLen ∧
    readLE s.image ((POOL_OFFSET + pool_i * 8) % 2 ^ 64) 8 ≤ s.imageLen ∧
    s' = { s with pp := readLE s.image ((POOL_OFFSET + pool_i * 8) % 2 ^ 64) 8 } := by
  by_cases hA : (POOL_OFFSET + pool_i * 8) % 2 ^ 64 + 8 ≤ s.imageLen
  · by_cases hB : readLE s.image ((POOL_OFFSET + pool_i * 8) % 2 ^ 64) 8 ≤ s.imageLen
    · rw [jump_pool_to_ok _ _ hA hB] at h
      simp only [Except.ok.injEq, Prod.mk.injEq] at h
      exact ⟨hA, hB, h.2.symm⟩
    · rw [jump_pool_to, jump_pp_ok _ _ (by omega), bindE_ok,
        next_pool_ok 8 _ (by show (POOL_OFFSET + pool_i * 8) % 2 ^ 64 + 8 ≤ s.imageLen; exact hA)] at h
      simp only [bindE_ok] at h
      rw [jump_pp_err _ _ (by show s.imageLen < readLE s.image ((POOL_OFFSET + pool_i * 8) % 2 ^ 64) 8; omega)] at h
      cases h
  · by_cases hC : (POOL_OFFSET + pool_i * 8) % 2 ^ 64 ≤ s.imageLen
    · rw [jump_pool_to, jump_pp_ok _ _ hC, bindE_ok,
        next_pool_err 8 _ (by show s.imageLen < (POOL_OFFSET + pool_i * 8) % 2 ^ 64 + 8; omega),
        bindE_err] at h
      cases h
    · rw [jump_pool_to, jump_pp_err _ _ (by omega), bindE_err] at h
      cases h

/-- The argument snapshot has exactly `arg_len` entries. -/
theorem argSnapshot_length (s : VM) (n : Nat) : (argSnapshot s n).length = n := by
  simp [argSnapshot]

/-- Inversion of a successful `Opcode::Invoke` body (entered with `pc` on the
`u64` pool-index immediate): recovers the validations that must have passed
and the complete resulting frame layout — the saved caller `bp` at the new
`bp`, the return address `pc + 8` just above it, `sp` reserving the whole
variable table, and all stack bytes below the new `bp` unchanged. -/
theorem op_invoke_inv (s s' : VM) (h : op_invoke s = .ok s') :
    s.pc + 8 ≤ s.imageLen ∧
    pInvokeArgLen s ≤ pInvokeVarLen s ∧
    pInvokeArgLen s * 4 ≤ s.sp ∧
    (pInvokeArgLen s = 0 ∨ s.bp + 16 + 4 * pInvokeArgLen s ≤ s.sp) ∧
    s'.image = s.image ∧ s'.imageLen = s.imageLen ∧
    s'.heap = s.heap ∧ s'.allocPtr = s.allocPtr ∧
    s'.pc = pInvokeStart s ∧ s'.pp = pInvokeVA s + 11 ∧
    s'.bp = s.sp - 4 * pInvokeArgLen s ∧
    s'.sp = s.sp - 4 * pInvokeArgLen s + 16 + 4 * pInvokeVarLen s ∧
    s'.sp ≤ MAX_STACK ∧
    pInvokeStart s ≤ s.imageLen ∧
    readLE s'.stack (s.sp - 4 * pInvokeArgLen s) 8 = s.bp % 2 ^ 64 ∧
    readLE s'.stack (s.sp - 4 * pInvokeArgLen s + 8) 8 = (s.pc + 8) % 2 ^ 64 ∧
    (∀ a wa, a + wa ≤ s.sp - 4 * pInvokeArgLen s →
      readLE s'.stack a wa = readLE s.stack a wa) := by
  rw [op_invoke] at h
  by_cases h1 : s.pc + 8 ≤ s.imageLen
  · rw [next_prg_ok 8 s h1] at h
    simp only [bindE_ok] at h
    cases hjp : jump_pool_to (readLE s.image s.pc 8) { s with pc := s.pc + 8 } with
    | error e =>
      rw [hjp, bindE_err, toStep_err] at h
      cases h
    | ok p =>
      obtain ⟨u, s₄⟩ := p
      obtain ⟨hA, hB, hs4⟩ := jump_pool_to_inv _ _ _ _ hjp
      rw [hjp] at h
      simp only [bindE_ok] at h
      subst hs4
      by_cases h3 : pInvokeVA s + 8 ≤ s.imageLen
      · rw [next_pool_ok 8 _ (by show pInvokeVA s + 8 ≤ s.imageLen; exact h3)] at h
        simp only [bindE_ok] at h
        by_cases h4 : pInvokeVA s + 8 + 2 ≤ s.imageLen
        · rw [next_pool_ok 2 _ (by show pInvokeVA s + 8 + 2 ≤ s.imageLen; exact h4)] at h
          simp only [bindE_ok] at h
          by_cases h5 : pInvokeVA s + 8 + 2 + 1 ≤ s.imageLen
          · rw [next_pool_ok 1 _ (by show pInvokeVA s + 8 + 2 + 1 ≤ s.imageLen; exact h5)] at h
            simp only [bindE_ok] at h
            rw [show readLE s.image ((POOL_OFFSET + readLE s.image s.pc 8 * 8) % 2 ^ 64) 8 = pInvokeVA s from rfl] at h
            rw [show readLE s.image (pInvokeVA s) 8 = pInvokeStart s from rfl,
              show readLE s.image (pInvokeVA s + 8) 2 = pInvokeVarLen s from rfl,
              show readLE s.image (pInvokeVA s + 8 + 2) 1 = pInvokeArgLen s from rfl] at h
            by_cases h6 : pInvokeVarLen s < pInvokeArgLen s ∨ s.sp < pInvokeArgLen s * 4
            · rw [if_pos (by exact h6), toStep_err] at h
              cases h
            · rw [if_neg (by exact h6)] at h
              push_neg at h6
              obtain ⟨h6a, h6b⟩ := h6
              cases hpop : stack_popN 4 (pInvokeArgLen s)
                  { s with pc := s.pc + 8, pp := pInvokeVA s + 8 + 2 + 1 } with
              | error e =>
                rw [hpop, bindE_err, toStep_err] at h
                cases h
              | ok q =>
                obtain ⟨uq, s₈⟩ := q
                obtain ⟨hs8, hpops⟩ := stack_popN_inv _ _ _ _ _ hpop
                rw [hpop] at h
                simp only [bindE_ok] at h
                subst hs8
                by_cases h8 : s.sp - 4 * pInvokeArgLen s + 8 ≤ MAX_STACK
                · rw [stack_push_ok 8 _ _ (by
                      show s.sp - 4 * pInvokeArgLen s + 8 ≤ MAX_STACK
                      omega)] at h
                  simp only [bindE_ok] at h
                  by_cases h9 : s.sp - 4 * pInvokeArgLen s + 8 + 8 ≤ MAX_STACK
                  · rw [stack_push_ok 8 _ _ (by
                        show s.sp - 4 * pInvokeArgLen s + 8 + 8 ≤ MAX_STACK
                        omega)] at h
                    simp only [bindE_ok] at h
                    cases hpa : push_args
                        (argSnapshot { s with pc := s.pc + 8, pp := pInvokeVA s + 8 + 2 + 1 }
                          (pInvokeArgLen s))
                        { s with
                            pc := s.pc + 8, pp := pInvokeVA s + 8 + 2 + 1,
                            stack := writeLE
                              (writeLE s.stack (s.sp - 4 * pInvokeArgLen s) 8 s.bp)
                              (s.sp - 4 * pInvokeArgLen s + 8) 8 (s.pc + 8),
                            sp := s.sp - 4 * pInvokeArgLen s + 8 + 8,
                            bp := s.sp - 4 * pInvokeArgLen s } with
                    | error e =>
                      rw [hpa, bindE_err, toStep_err] at h
                      cases h
                    | ok r =>
                      obtain ⟨ur, s₁₁⟩ := r
                      obtain ⟨hq1, hq3, hq4, hq5, hq6, hq7, hq8, hq9, hq10⟩ :=
                        push_args_inv _ _ _ _ hpa
                      dsimp only at hq1 hq3 hq4 hq5 hq6 hq7 hq8 hq9 hq10
                      rw [hpa] at h
                      simp only [bindE_ok] at h
                      rw [argSnapshot_length] at hq1
                      by_cases h11 : s₁₁.sp + (pInvokeVarLen s - pInvokeArgLen s) * 4 ≤ MAX_STACK
                      · rw [jump_stack_to_ok _ _ h11] at h
                        simp only [bindE_ok] at h
                        by_cases h12 : pInvokeStart s ≤ s.imageLen
                        · rw [jump_prg_to_ok _ _ (by
                              show pInvokeStart s ≤ s₁₁.imageLen
                              omega)] at h
                          rw [toStep_ok] at h
                          simp only [Except.ok.injEq] at h
                          subst h
                          refine ⟨h1, h6a, h6b, hpops, hq6, hq7, hq8, hq9, rfl, hq5, hq3, ?_, ?_, h12, ?_, ?_, ?_⟩
                          · show s₁₁.sp + (pInvokeVarLen s - pInvokeArgLen s) * 4 = _
                            rw [hq1]
                            show s.sp - 4 * pInvokeArgLen s + 8 + 8 + 4 * pInvokeArgLen s +
                              (pInvokeVarLen s - pInvokeArgLen s) * 4 = _
                            omega
                          · show s₁₁.sp + (pInvokeVarLen s - pInvokeArgLen s) * 4 ≤ MAX_STACK
                            exact h11
                          · rw [hq10 _ _ (by show _ ≤ s.sp - 4 * pInvokeArgLen s + 8 + 8; omega)]
                            rw [readLE_writeLE_below _ _ _ _ _ _ (by omega), readLE_writeLE]
                            norm_num
                          · rw [hq10 _ _ (by show _ ≤ s.sp - 4 * pInvokeArgLen s + 8 + 8; omega)]
                            rw [readLE_writeLE]
                            norm_num
                          · intro a wa hawa
                            rw [hq10 _ _ (by show _ ≤ s.sp - 4 * pInvokeArgLen s + 8 + 8; omega)]
                            rw [readLE_writeLE_below _ _ _ _ _ _ (by omega),
                              readLE_writeLE_below _ _ _ _ _ _ (by omega)]
                        · rw [jump_prg_to_err _ _ (by show s₁₁.imageLen < pInvokeStart s; omega),
                            toStep_err] at h
                          cases h
                      · rw [jump_stack_to_err _ _ (by omega), bindE_err, toStep_err] at h
                        cases h
                  · rw [stack_push_err 8 _ _ (by
                        show MAX_STACK < s.sp - 4 * pInvokeArgLen s + 8 + 8
                        omega)] at h
                    rw [bindE_err, toStep_err] at h
                    cases h
                · rw [stack_push_err 8 _ _ (by
                      show MAX_STACK < s.sp - 4 * pInvokeArgLen s + 8
                      omega)] at h
                  rw [bindE_err, toStep_err] at h
                  cases h
          · rw [next_pool_err 1 _ (by show s.imageLen < pInvokeVA s + 8 + 2 + 1; omega),
              bindE_err, toStep_err] at h
            cases h
        · rw [next_pool_err 2 _ (by show s.imageLen < pInvokeVA s + 8 + 2; omega),
            bindE_err, toStep_err] at h
          cases h
      · rw [next_pool_err 8 _ (by show s.imageLen < pInvokeVA s + 8; omega),
          bindE_err, toStep_err] at h
        cases h
  · rw [next_prg_err 8 s (by omega), bindE_err, toStep_err] at h
    cases h

/-- Inversion of a successful `Opcode::Ret`: the frame anchor must be
present, the popped return address must pass the program jump check, and the
result restores `pc` from `[bp + 8, bp + 16)`, `bp` from `[bp, bp + 8)` and
leaves `sp` at the old `bp`. -/
theorem op_ret_inv (s s' : VM) (h : op_ret s = .ok s') :
    s.bp + 16 ≤ s.sp ∧
    readLE s.stack (s.bp + 8) 8 ≤ s.imageLen ∧
    s' = { s with pc := readLE s.stack (s.bp + 8) 8, bp := readLE s.stack s.bp 8,
                  sp := s.bp } := by
  rw [op_ret] at h
  by_cases h1 : s.sp < s.bp ∨ s.sp - s.bp < 16
  · rw [if_pos h1] at h
    cases h
  · rw [if_neg h1] at h
    push_neg at h1
    obtain ⟨h1a, h1b⟩ := h1
    rw [raw_stack_popN_ok 1 (s.sp - s.bp - 16) s (by omega)] at h
    simp only [bindE_ok] at h
    rw [show s.sp - 1 * (s.sp - s.bp - 16) = s.bp + 16 from by omega] at h
    rw [raw_stack_pop_ok 8 _ (by show (8 : Nat) ≤ s.bp + 16; omega)] at h
    simp only [bindE_ok] at h
    rw [show s.bp + 16 - 8 = s.bp + 8 from by omega] at h
    by_cases h2 : readLE s.stack (s.bp + 8) 8 ≤ s.imageLen
    · rw [jump_prg_to_ok _ _ (by show readLE s.stack (s.bp + 8) 8 ≤ s.imageLen; exact h2)] at h
      simp only [bindE_ok] at h
      rw [raw_stack_pop_ok 8 _ (by show (8 : Nat) ≤ s.bp + 8; omega)] at h
      simp only [bindE_ok] at h
      rw [show s.bp + 8 - 8 = s.bp from by omega, toStep_ok] at h
      simp only [Except.ok.injEq] at h
      exact ⟨by omega, h2, h.symm⟩
    · rw [jump_prg_to_err _ _ (by show s.imageLen < readLE s.stack (s.bp + 8) 8; omega),
        bindE_err, toStep_err] at h
      cases h

/-- Pool slot address used by an `invoke` whose opcode byte sits at `pc`. -/
def invokeSlot (s : VM) : Nat := (POOL_OFFSET + readLE s.image (s.pc + 1) 8 * 8) % 2 ^ 64

/-- Descriptor address resolved by an `invoke` at `pc`. -/
def invokeVA (s : VM) : Nat := readLE s.image (invokeSlot s) 8

/-- `start_addr` of the function invoked by the `invoke` at `pc`. -/
def invokeStart (s : VM) : Nat := readLE s.image (invokeVA s) 8

/-- `var_len` of the function invoked by the `invoke` at `pc`. -/
def invokeVarLen (s : VM) : Nat := readLE s.image (invokeVA s + 8) 2

/-- `arg_len` of the function invoked by the `invoke` at `pc`. -/
def invokeArgLen (s : VM) : Nat := readLE s.image (invokeVA s + 10) 1

/-- C2: an `Invoke` that completes successfully, immediately followed by a
successful `Ret` as the callee's first opcode, restores `(pc, bp, sp)` to
`(pc_after_invoke, bp_before, sp_before - 4 * arg_len)`, where
`pc_after_invoke = pc + 9` is the address just past the `u64` immediate. -/
theorem c2_invoke_ret_roundtrip (s s₁ s₂ : VM)
    (h3 : s.image s.pc = 3) (hstep1 : step s = .ok s₁)
    (h4 : s₁.image s₁.pc = 4) (hstep2 : step s₁ = .ok s₂)
    (hbp : s.bp < 2 ^ 64) (hpc : s.pc + 9 < 2 ^ 64) :
    s₂.pc = s.pc + 9 ∧ s₂.bp = s.bp ∧ s₂.sp + 4 * invokeArgLen s = s.sp := by
  obtain ⟨hf1, hd1⟩ := step_inv _ _ hstep1
  rw [h3] at hd1
  have hinv : op_invoke { s with pc := s.pc + 1 } = .ok s₁ := hd1
  obtain ⟨i1, i2, i3, i4, i5, i6, i7, i8, i9, i10, i11, i12, i13, i14, i15, i16, i17⟩ :=
    op_invoke_inv _ _ hinv
  rw [show pInvokeArgLen { s with pc := s.pc + 1 } = invokeArgLen s from rfl] at i3 i11 i15 i16
  dsimp only at i1 i3 i11 i12 i15 i16
  obtain ⟨hf2, hd2⟩ := step_inv _ _ hstep2
  rw [h4] at hd2
  have hret : op_ret { s₁ with pc := s₁.pc + 1 } = .ok s₂ := hd2
  obtain ⟨r1, r2, r3⟩ := op_ret_inv _ _ hret
  dsimp only at r1 r2 r3
  rw [show s.pc + 1 + 8 = s.pc + 9 from by omega] at i16
  rw [Nat.mod_eq_of_lt hpc] at i16
  rw [Nat.mod_eq_of_lt hbp] at i15
  have h2pc : s₂.pc = readLE s₁.stack (s₁.bp + 8) 8 := by rw [r3]
  have h2bp : s₂.bp = readLE s₁.stack s₁.bp 8 := by rw [r3]
  have h2sp : s₂.sp = s₁.bp := by rw [r3]
  refine ⟨?_, ?_, ?_⟩
  · rw [h2pc, i11, i16]
  · rw [h2bp, i11, i15]
  · rw [h2sp, i11]
    omega

/-- Concrete image: pool slot 0 at offset 128 points to a descriptor at 136
with `start_addr = 50`, `var_len = 1`, `arg_len = 0`; an `invoke 0`
instruction sits at 100 and the byte at 50 is `ret`. -/
def c2img : Nat → Nat := fun i =>
  if i = 100 then 3 else if i = 50 then 4 else if i = 128 then 136
  else if i = 136 then 50 else if i = 144 then 1 else 0

/-- Concrete machine about to execute the `invoke` at `pc = 100` from the
bootstrapped entry frame (saved bp 0 at `[0, 8)`, return address 159 at
`[8, 16)`). -/
def c2vm : VM :=
  { zeroVM with
      image := c2img
      imageLen := 160
      stack := fun i => if i = 8 then 159 else 0
      sp := 16
      pc := 100
      pp := 128 }

set_option maxHeartbeats 2000000 in
/-- Witness for C2 on the concrete machine: after `invoke` and the callee's
immediate `ret`, `(pc, bp, sp)` are back to `(109, 0, 16)`. -/
theorem c2_invoke_ret_roundtrip_witness :
    (resState (step (resState (step c2vm) c2vm)) c2vm).pc = c2vm.pc + 9 ∧
    (resState (step (resState (step c2vm) c2vm)) c2vm).bp = c2vm.bp ∧
    (resState (step (resState (step c2vm) c2vm)) c2vm).sp + 4 * invokeArgLen c2vm = c2vm.sp :=
  c2_invoke_ret_roundtrip c2vm (resState (step c2vm) c2vm)
    (resState (step (resState (step c2vm) c2vm)) c2vm)
    rfl rfl rfl rfl (by decide) (by decide)

/-- Inversion for a successful `var_table_diff!`: the returned distance
addresses the stack cell at `bp + 16 + 4 * i`. -/
theorem var_table_diff_inv (w i : Nat) (t t' : VM) (d : Nat)
    (h : var_table_diff w i t = .ok (d, t')) :
    t' = t ∧ t.bp + 16 + (4 * i + w) ≤ t.sp ∧ t.sp - d = t.bp + 16 + 4 * i := by
  by_cases hc : t.bp + 16 + (4 * i + w) ≤ t.sp
  · rw [var_table_diff_ok w i t hc] at h
    simp only [Except.ok.injEq, Prod.mk.injEq] at h
    refine ⟨h.2.symm, hc, ?_⟩
    omega
  · rw [var_table_diff_err w i t (by omega)] at h
    cases h

/-- C1 (amended): immediately after every successful `Invoke`, `bp` points to
the base of the 16-byte frame anchor: the saved caller `bp` occupies
`[bp, bp + 8)` and the return address `pc + 9` occupies `[bp + 8, bp + 16)`;
the variable table begins at `bp + 16`, and a variable-table access of slot
`i` addresses the stack at `stack_base + bp + 16 + 4 * i`. -/
theorem c1_frame_layout_amended (s s' : VM)
    (h3 : s.image s.pc = 3) (hstep : step s = .ok s')
    (hbp : s.bp < 2 ^ 64) (hpc : s.pc + 9 < 2 ^ 64) :
    readLE s'.stack s'.bp 8 = s.bp ∧
    readLE s'.stack (s'.bp + 8) 8 = s.pc + 9 ∧
    (∀ w i d t t', var_table_diff w i t = .ok (d, t') → t.sp - d = t.bp + 16 + 4 * i) ∧
    (∀ w i v t t', store_var w i v t = .ok ((), t') →
      t'.stack = writeLE t.stack (t.bp + 16 + 4 * i) w v ∧ t'.sp = t.sp) := by
  obtain ⟨hf1, hd1⟩ := step_inv _ _ hstep
  rw [h3] at hd1
  have hinv : op_invoke { s with pc := s.pc + 1 } = .ok s' := hd1
  obtain ⟨i1, i2, i3, i4, i5, i6, i7, i8, i9, i10, i11, i12, i13, i14, i15, i16, i17⟩ :=
    op_invoke_inv _ _ hinv
  dsimp only at i11 i15 i16
  rw [show s.pc + 1 + 8 = s.pc + 9 from by omega] at i16
  rw [Nat.mod_eq_of_lt hpc] at i16
  rw [Nat.mod_eq_of_lt hbp] at i15
  refine ⟨by rw [i11]; exact i15, by rw [i11]; exact i16, ?_, ?_⟩
  · intro w i d t t' h
    exact (var_table_diff_inv w i t t' d h).2.2
  · intro w i v t t' h
    rw [store_var] at h
    cases hv : var_table_diff w i t with
    | error e =>
      rw [hv, bindE_err] at h
      cases h
    | ok p =>
      obtain ⟨d, t₂⟩ := p
      obtain ⟨ht2, hle, haddr⟩ := var_table_diff_inv w i t t₂ d hv
      subst ht2
      rw [hv, bindE_ok] at h
      simp only [Except.ok.injEq, Prod.mk.injEq] at h
      rw [← h.2]
      exact ⟨by rw [haddr], rfl⟩

/-- Counterexample to C1 as stated: on the concrete machine the successful
`invoke` sets `bp = 16`, the slot-0 variable access addresses stack offset
`sp - diff = 32 = bp + 16`, not `bp + 4·0 = 16`, and the byte range
`[bp - 8, bp)` holds the entry frame's leftover 159, not the return address
109, which actually sits at `[bp + 8, bp + 16)`. -/
theorem c1_frame_layout_counterexample :
    (resState (step c2vm) c2vm).bp = 16 ∧
    var_table_diff 4 0 (resState (step c2vm) c2vm) = .ok (4, resState (step c2vm) c2vm) ∧
    (resState (step c2vm) c2vm).sp - 4 = 32 ∧
    readLE (resState (step c2vm) c2vm).stack 8 8 = 159 ∧
    readLE (resState (step c2vm) c2vm).stack 24 8 = 109 ∧
    (32 : Nat) ≠ 16 + 4 * 0 ∧ (159 : Nat) ≠ 109 :=
  ⟨rfl, rfl, rfl, by decide, by decide, by decide, by decide⟩

set_option maxHeartbeats 2000000 in
/-- Witness for C1 (amended) on the concrete machine: the anchor at
`[16, 32)` holds the caller's `bp` 0 and the return address 109. -/
theorem c1_frame_layout_amended_witness :
    readLE (resState (step c2vm) c2vm).stack (resState (step c2vm) c2vm).bp 8 = c2vm.bp ∧
    readLE (resState (step c2vm) c2vm).stack ((resState (step c2vm) c2vm).bp + 8) 8 = c2vm.pc + 9 :=
  ⟨(c1_frame_layout_amended c2vm (resState (step c2vm) c2vm) rfl rfl (by decide) (by decide)).1,
   (c1_frame_layout_amended c2vm (resState (step c2vm) c2vm) rfl rfl (by decide) (by decide)).2.1⟩

/-- C8 (amended): when the invoked descriptor carries at least one argument,
`Invoke` halts with `StackAccessViolation` whenever
`sp - bp < 16 + 4 * arg_len`, even though the documented validations
`var_len ≥ arg_len` and `sp ≥ 4 * arg_len` both pass: the arguments are
removed with the checked pop, which refuses to reach into the current
frame's 16-byte anchor. -/
theorem c8_invoke_argpop_guard (s : VM)
    (h3 : s.image s.pc = 3)
    (h1 : s.pc + 9 ≤ s.imageLen)
    (hA : invokeSlot s + 8 ≤ s.imageLen)
    (hB : invokeVA s ≤ s.imageLen)
    (hC : invokeVA s + 11 ≤ s.imageLen)
    (hval1 : invokeArgLen s ≤ invokeVarLen s)
    (hval2 : invokeArgLen s * 4 ≤ s.sp)
    (hL : 1 ≤ invokeArgLen s)
    (hanchor : s.sp < s.bp + 16 + 4 * invokeArgLen s) :
    step s = .error .StackAccessViolation := by
  rw [step_eq s (by omega), h3]
  show op_invoke { s with pc := s.pc + 1 } = _
  rw [op_invoke]
  rw [next_prg_ok 8 _ (by show s.pc + 1 + 8 ≤ s.imageLen; omega)]
  simp only [bindE_ok]
  rw [jump_pool_to_ok _ _ (by show invokeSlot s + 8 ≤ s.imageLen; exact hA)
      (by show invokeVA s ≤ s.imageLen; exact hB)]
  simp only [bindE_ok]
  rw [next_pool_ok 8 _ (by show invokeVA s + 8 ≤ s.imageLen; omega)]
  simp only [bindE_ok]
  rw [next_pool_ok 2 _ (by show invokeVA s + 8 + 2 ≤ s.imageLen; omega)]
  simp only [bindE_ok]
  rw [next_pool_ok 1 _ (by show invokeVA s + 8 + 2 + 1 ≤ s.imageLen; omega)]
  simp only [bindE_ok]
  rw [if_neg (by show ¬(invokeVarLen s < invokeArgLen s ∨ s.sp < invokeArgLen s * 4); omega)]
  rw [stack_popN_err 4 _ _ (by show (1 : Nat) ≤ invokeArgLen s; exact hL)
      (by show s.sp < s.bp + 16 + 4 * invokeArgLen s; exact hanchor)]
  rfl

/-- The concrete machine of `c2vm` with an empty stack: `sp - bp = 0 < 16`. -/
def c8vm : VM := { c2vm with sp := 0, stack := fun _ => 0 }

/-- Counterexample to C8 as stated: with `arg_len = 0` no argument is ever
popped, so even though `sp - bp = 0 < 16 + 4 * arg_len` and both documented
validations pass, the `invoke` succeeds instead of halting with
`StackAccessViolation`. -/
theorem c8_invoke_argpop_guard_counterexample :
    c8vm.image c8vm.pc = 3 ∧
    invokeArgLen c8vm = 0 ∧
    invokeArgLen c8vm ≤ invokeVarLen c8vm ∧
    invokeArgLen c8vm * 4 ≤ c8vm.sp ∧
    c8vm.sp < c8vm.bp + 16 + 4 * invokeArgLen c8vm ∧
    stepOk (step c8vm) = true :=
  ⟨rfl, by decide, by decide, by decide, by decide, by decide⟩

/-- Image of `c2img` whose descriptor instead carries `arg_len = 1`. -/
def c8img : Nat → Nat := fun i => if i = 146 then 1 else c2img i

/-- Machine about to `invoke` a one-argument function with
`sp - bp = 18 < 16 + 4 * 1`, though `var_len ≥ arg_len` and
`sp ≥ 4 * arg_len` hold. -/
def c8w : VM := { c2vm with image := c8img, sp := 18 }

/-- Witness for C8 (amended): the checked argument pop faults. -/
theorem c8_invoke_argpop_guard_witness :
    step c8w = .error .StackAccessViolation :=
  c8_invoke_argpop_guard c8w rfl (by decide) (by decide) (by decide) (by decide)
    (by decide) (by decide) (by decide) (by decide)

/-- The bootstrapped entry-frame anchor at the bottom of the stack: saved
base pointer 0 and a return address of at least `IMAGE_LEN - 1`. -/
def entryAnchorB (st : Nat → Nat) (len : Nat) : Bool :=
  decide (readLE st 0 8 = 0) && decide (len ≤ readLE st 8 8 + 1)

/-- Fueled well-formedness of the chain of frame anchors hanging from `bp`:
each frame's saved base pointer points at least 16 bytes further down, ending
in the entry anchor at 0. -/
def chainFuel : Nat → (Nat → Nat) → Nat → Nat → Bool
  | 0, st, len, bp => if bp = 0 then entryAnchorB st len else false
  | f + 1, st, len, bp =>
    if bp = 0 then entryAnchorB st len
    else decide (readLE st bp 8 + 16 ≤ bp) && chainFuel f st len (readLE st bp 8)

/-- Well-formedness of the frame-anchor chain from `bp`. -/
def chainOk (st : Nat → Nat) (len bp : Nat) : Prop :=
  chainFuel bp st len bp = true

/-- The fuel is irrelevant once it is at least `bp`. -/
theorem chainFuel_of_le (st : Nat → Nat) (len : Nat) :
    ∀ bp f f', bp ≤ f → bp ≤ f' → chainFuel f st len bp = chainFuel f' st len bp := by
  intro bp
  induction bp using Nat.strong_induction_on with
  | _ bp ih =>
    intro f f' hf hf'
    by_cases hbp : bp = 0
    · subst hbp
      cases f <;> cases f' <;> simp [chainFuel]
    · cases f with
      | zero => exact absurd hf (by omega)
      | succ g =>
        cases f' with
        | zero => exact absurd hf' (by omega)
        | succ g' =>
          simp only [chainFuel, if_neg hbp]
          by_cases hsv : readLE st bp 8 + 16 ≤ bp
          · rw [ih (readLE st bp 8) (by omega) g g' (by omega) (by omega)]
          · simp [hsv]

/-- Two stacks that agree on all reads below `bp + 16` have the same chain
well-formedness at `bp`. -/
theorem chainFuel_congr (st st' : Nat → Nat) (len : Nat) :
    ∀ f bp, (∀ a wa, a + wa ≤ bp + 16 → readLE st' a wa = readLE st a wa) →
      chainFuel f st' len bp = chainFuel f st len bp := by
  intro f
  induction f with
  | zero =>
    intro bp hr
    by_cases hbp : bp = 0
    · subst hbp
      simp only [chainFuel, if_pos rfl, entryAnchorB,
        hr 0 8 (by omega), hr 8 8 (by omega)]
    · simp [chainFuel, hbp]
  | succ f ih =>
    intro bp hr
    by_cases hbp : bp = 0
    · subst hbp
      simp only [chainFuel, if_pos rfl, entryAnchorB,
        hr 0 8 (by omega), hr 8 8 (by omega)]
      simp
    · simp only [chainFuel, if_neg hbp, hr bp 8 (by omega)]
      by_cases hsv : readLE st bp 8 + 16 ≤ bp
      · rw [ih (readLE st bp 8) (fun a wa hw => hr a wa (by omega))]
      · simp [hsv]

/-- Chain well-formedness is unaffected by reads-preserving stack changes. -/
theorem chainOk_congr (st st' : Nat → Nat) (len bp : Nat)
    (hr : ∀ a wa, a + wa ≤ bp + 16 → readLE st' a wa = readLE st a wa)
    (h : chainOk st len bp) : chainOk st' len bp := by
  rw [chainOk, chainFuel_congr st st' len bp bp hr]
  exact h

/-- Chain well-formedness is unaffected by writes at or above `bp + 16`. -/
theorem chainOk_write (st : Nat → Nat) (len bp k w v : Nat) (hk : bp + 16 ≤ k)
    (h : chainOk st len bp) : chainOk (writeLE st k w v) len bp :=
  chainOk_congr st _ len bp
    (fun a wa hw => readLE_writeLE_below _ _ _ _ _ _ (by omega)) h

/-- The per-frame interpreter invariant inside an active frame: the anchor is
below `sp`, the stack pointer is within the stack, and the anchor chain from
`bp` is well formed. -/
def StInv (s : VM) : Prop :=
  s.bp + 16 ≤ s.sp ∧ s.sp ≤ MAX_STACK ∧ chainOk s.stack s.imageLen s.bp

/-- The degenerate post-entry-return state: both pointers at zero and at most
one more opcode fetch possible. -/
def DegInv (s : VM) : Prop :=
  s.bp = 0 ∧ s.sp = 0 ∧ s.imageLen ≤ s.pc + 1

/-- The interpreter invariant between opcode dispatches. -/
def VMInv (s : VM) : Prop := StInv s ∨ DegInv s

/-- Pushing an immediate preserves the frame invariant. -/
theorem stInv_push_imm (rw pw : Nat) (u u' : VM) (a : Unit)
    (h : push_imm rw pw u = .ok (a, u')) (hI : StInv u) : StInv u' := by
  obtain ⟨hI1, hI2, hI3⟩ := hI
  rw [push_imm] at h
  by_cases h1 : u.pc + rw ≤ u.imageLen
  · rw [next_prg_ok rw u h1] at h
    simp only [bindE_ok] at h
    by_cases h2 : u.sp + pw ≤ MAX_STACK
    · rw [stack_push_ok pw _ _ (by show u.sp + pw ≤ MAX_STACK; exact h2)] at h
      simp only [Except.ok.injEq, Prod.mk.injEq] at h
      rw [← h.2]
      refine ⟨by show u.bp + 16 ≤ u.sp + pw; omega, by show u.sp + pw ≤ MAX_STACK; exact h2, ?_⟩
      show chainOk (writeLE u.stack u.sp pw _) u.imageLen u.bp
      exact chainOk_write _ _ _ _ _ _ (by omega) hI3
    · rw [stack_push_err pw _ _ (by show MAX_STACK < u.sp + pw; omega)] at h
      cases h
  · rw [next_prg_err rw u (by omega), bindE_err] at h
    cases h

/-- `dup`/`dup2` preserve the frame invariant. -/
theorem stInv_dup (w : Nat) (u u' : VM) (a : Unit)
    (h : op_dup w u = .ok (a, u')) (hI : StInv u) : StInv u' := by
  obtain ⟨hI1, hI2, hI3⟩ := hI
  rw [op_dup] at h
  by_cases h1 : u.bp + 16 + w ≤ u.sp
  · rw [stack_top_ok w u h1] at h
    simp only [bindE_ok] at h
    by_cases h2 : u.sp + w ≤ MAX_STACK
    · rw [stack_push_ok w _ _ h2] at h
      simp only [Except.ok.injEq, Prod.mk.injEq] at h
      rw [← h.2]
      refine ⟨by show u.bp + 16 ≤ u.sp + w; omega, by show u.sp + w ≤ MAX_STACK; exact h2, ?_⟩
      show chainOk (writeLE u.stack u.sp w _) u.imageLen u.bp
      exact chainOk_write _ _ _ _ _ _ (by omega) hI3
    · rw [stack_push_err w _ _ (by omega)] at h
      cases h
  · rw [stack_top_err w u (by omega), bindE_err] at h
    cases h

/-- `pop`/`pop2`/`drop` preserve the frame invariant. -/
theorem stInv_discard (w : Nat) (u u' : VM) (a : Unit)
    (h : op_discard w u = .ok (a, u')) (hI : StInv u) : StInv u' := by
  obtain ⟨hI1, hI2, hI3⟩ := hI
  rw [op_discard] at h
  by_cases h1 : u.bp + 16 + w ≤ u.sp
  · rw [stack_pop_ok w u h1] at h
    simp only [bindE_ok, Except.ok.injEq, Prod.mk.injEq] at h
    rw [← h.2]
    exact ⟨by show u.bp + 16 ≤ u.sp - w; omega, by show u.sp - w ≤ MAX_STACK; omega, hI3⟩
  · rw [stack_pop_err w u (by omega), bindE_err] at h
    cases h

/-- `load`/`load2` preserve the frame invariant. -/
theorem stInv_load_var (w : Nat) (u u' : VM) (a : Unit)
    (h : op_load_var w u = .ok (a, u')) (hI : StInv u) : StInv u' := by
  obtain ⟨hI1, hI2, hI3⟩ := hI
  rw [op_load_var] at h
  by_cases h1 : u.pc + 2 ≤ u.imageLen
  · rw [next_prg_ok 2 u h1] at h
    simp only [bindE_ok] at h
    rw [load_var] at h
    cases hv : var_table_diff w (readLE u.image u.pc 2) { u with pc := u.pc + 2 } with
    | error e =>
      rw [hv, bindE_err] at h
      cases h
    | ok p =>
      obtain ⟨d, t⟩ := p
      obtain ⟨ht, hle, haddr⟩ := var_table_diff_inv _ _ _ _ _ hv
      subst ht
      rw [hv] at h
      simp only [bindE_ok] at h
      by_cases h2 : u.sp + w ≤ MAX_STACK
      · rw [stack_push_ok w _ _ (by show u.sp + w ≤ MAX_STACK; exact h2)] at h
        simp only [Except.ok.injEq, Prod.mk.injEq] at h
        rw [← h.2]
        refine ⟨by show u.bp + 16 ≤ u.sp + w; omega, by show u.sp + w ≤ MAX_STACK; exact h2, ?_⟩
        show chainOk (writeLE u.stack u.sp w _) u.imageLen u.bp
        exact chainOk_write _ _ _ _ _ _ (by omega) hI3
      · rw [stack_push_err w _ _ (by show MAX_STACK < u.sp + w; omega)] at h
        cases h
  · rw [next_prg_err 2 u (by omega), bindE_err] at h
    cases h

/-- `store`/`store2` preserve the frame invariant. -/
theorem stInv_store_var (w : Nat) (u u' : VM) (a : Unit)
    (h : op_store_var w u = .ok (a, u')) (hI : StInv u) : StInv u' := by
  obtain ⟨hI1, hI2, hI3⟩ := hI
  rw [op_store_var] at h
  by_cases h1 : u.pc + 2 ≤ u.imageLen
  · rw [next_prg_ok 2 u h1] at h
    simp only [bindE_ok] at h
    by_cases h2 : u.bp + 16 + w ≤ u.sp
    · rw [stack_pop_ok w _ (by show u.bp + 16 + w ≤ u.sp; exact h2)] at h
      simp only [bindE_ok] at h
      rw [store_var] at h
      cases hv : var_table_diff w (readLE u.image u.pc 2)
          { u with pc := u.pc + 2, sp := u.sp - w } with
      | error e =>
        rw [hv, bindE_err] at h
        cases h
      | ok p =>
        obtain ⟨d, t⟩ := p
        obtain ⟨ht, hle, haddr⟩ := var_table_diff_inv _ _ _ _ _ hv
        subst ht
        rw [hv] at h
        simp only [bindE_ok, Except.ok.injEq, Prod.mk.injEq] at h
        rw [← h.2]
        dsimp only at haddr hle
        refine ⟨by show u.bp + 16 ≤ u.sp - w; omega, by show u.sp - w ≤ MAX_STACK; omega, ?_⟩
        show chainOk (writeLE u.stack (u.sp - w - d) w _) u.imageLen u.bp
        rw [show u.sp - w - d = u.bp + 16 + 4 * readLE u.image u.pc 2 from haddr]
        exact chainOk_write _ _ _ _ _ _ (by omega) hI3
    · rw [stack_pop_err w _ (by show u.sp < u.bp + 16 + w; omega), bindE_err] at h
      cases h
  · rw [next_prg_err 2 u (by omega), bindE_err] at h
    cases h

/-- The chain at the entry frame is exactly the bootstrapped anchor. -/
theorem chainOk_zero (st : Nat → Nat) (len : Nat) :
    chainOk st len 0 ↔ (readLE st 0 8 = 0 ∧ len ≤ readLE st 8 8 + 1) := by
  simp [chainOk, chainFuel, entryAnchorB]

/-- Unfolding the chain one frame down at a nonzero `bp`. -/
theorem chainOk_pos (st : Nat → Nat) (len bp : Nat) (h : bp ≠ 0) :
    chainOk st len bp ↔
      (readLE st bp 8 + 16 ≤ bp ∧ chainOk st len (readLE st bp 8)) := by
  obtain ⟨g, rfl⟩ : ∃ g, bp = g + 1 := ⟨bp - 1, by omega⟩
  simp only [chainOk, chainFuel, if_neg h, Bool.and_eq_true, decide_eq_true_eq]
  constructor
  · rintro ⟨h1, h2⟩
    refine ⟨h1, ?_⟩
    show chainFuel (readLE st (g + 1) 8) st len (readLE st (g + 1) 8) = true
    rw [chainFuel_of_le st len (readLE st (g + 1) 8) (readLE st (g + 1) 8) g (by omega) (by omega)]
    exact h2
  · rintro ⟨h1, h2⟩
    refine ⟨h1, ?_⟩
    rw [chainFuel_of_le st len (readLE st (g + 1) 8) g (readLE st (g + 1) 8) (by omega) (by omega)]
    exact h2

/-- Changing only the program counter preserves the frame invariant. -/
theorem stInv_pc (u : VM) (p : Nat) (h : StInv u) : StInv { u with pc := p } := h

/-- A successful `goto!` only moves the program counter. -/
theorem goto_m_inv (u u' : VM) (a : Unit) (h : goto_m u = .ok (a, u')) :
    ∃ p, u' = { u with pc := p } := by
  rw [goto_m] at h
  by_cases h1 : u.pc + 2 ≤ u.imageLen
  · rw [next_prg_i16_ok u h1] at h
    simp only [bindE_ok] at h
    by_cases h2 : ((u.pc + 2 : Nat) : Int) + i16val (readLE u.image u.pc 2) < 0
    · rw [if_pos (by exact h2)] at h
      cases h
    · rw [if_neg (by exact h2)] at h
      by_cases h3 : (((u.pc + 2 : Nat) : Int) + i16val (readLE u.image u.pc 2)).toNat ≤ u.imageLen
      · rw [jump_prg_to_ok _ _ (by exact h3)] at h
        simp only [Except.ok.injEq, Prod.mk.injEq] at h
        exact ⟨_, h.2.symm⟩
      · rw [jump_prg_to_err _ _ (by
            show u.imageLen < (((u.pc + 2 : Nat) : Int) + i16val (readLE u.image u.pc 2)).toNat
            omega)] at h
        cases h
  · rw [next_prg_i16, if_pos (by omega), bindE_err] at h
    cases h

/-- A successful `goto_if!` only moves the program counter. -/
theorem goto_if_inv (c : Bool) (u u' : VM) (a : Unit) (h : goto_if c u = .ok (a, u')) :
    ∃ p, u' = { u with pc := p } := by
  rw [goto_if] at h
  by_cases hc : c = true
  · rw [if_pos hc] at h
    exact goto_m_inv u u' a h
  · rw [if_neg hc] at h
    by_cases h1 : u.pc + 2 ≤ u.imageLen
    · rw [next_prg_i16_ok u h1] at h
      simp only [bindE_ok, Except.ok.injEq, Prod.mk.injEq] at h
      exact ⟨u.pc + 2, h.2.symm⟩
    · rw [next_prg_i16, if_pos (by omega), bindE_err] at h
      cases h

/-- `goto` preserves the frame invariant. -/
theorem stInv_goto (u u' : VM) (a : Unit) (h : goto_m u = .ok (a, u'))
    (hI : StInv u) : StInv u' := by
  obtain ⟨p, hp⟩ := goto_m_inv u u' a h
  rw [hp]
  exact stInv_pc u p hI

/-- `if`/`ifnot` preserve the frame invariant. -/
theorem stInv_cond (flip : Bool) (u u' : VM) (a : Unit)
    (h : op_cond flip u = .ok (a, u')) (hI : StInv u) : StInv u' := by
  obtain ⟨hI1, hI2, hI3⟩ := hI
  rw [op_cond] at h
  by_cases h1 : u.bp + 16 + 4 ≤ u.sp
  · rw [stack_pop_ok 4 u h1] at h
    simp only [bindE_ok] at h
    obtain ⟨p, hp⟩ := goto_if_inv _ _ _ _ h
    rw [hp]
    exact ⟨by show u.bp + 16 ≤ u.sp - 4; omega, by show u.sp - 4 ≤ MAX_STACK; omega, hI3⟩
  · rw [stack_pop_err 4 u (by omega), bindE_err] at h
    cases h

/-- `call` preserves the frame invariant. -/
theorem stInv_call (u u' : VM) (h : op_call u = .ok u') (hI : StInv u) : StInv u' := by
  obtain ⟨hI1, hI2, hI3⟩ := hI
  rw [op_call] at h
  by_cases h1 : u.pc + 1 ≤ u.imageLen
  · rw [next_prg_ok 1 u h1] at h
    simp only [bindE_ok] at h
    by_cases hc0 : readLE u.image u.pc 1 = 0
    · rw [if_pos hc0, toStep_ok] at h
      simp only [Except.ok.injEq] at h
      rw [← h]
      exact ⟨hI1, hI2, hI3⟩
    · rw [if_neg hc0] at h
      by_cases hc1 : readLE u.image u.pc 1 = 1
      · rw [if_pos hc1] at h
        by_cases h2 : u.bp + 16 + 8 ≤ u.sp
        · rw [stack_pop_ok 8 _ (by show u.bp + 16 + 8 ≤ u.sp; exact h2)] at h
          simp only [bindE_ok, toStep_ok, Except.ok.injEq] at h
          rw [← h]
          exact ⟨by show u.bp + 16 ≤ u.sp - 8; omega, by show u.sp - 8 ≤ MAX_STACK; omega, hI3⟩
        · rw [stack_pop_err 8 _ (by show u.sp < u.bp + 16 + 8; omega), bindE_err, toStep_err] at h
          cases h
      · rw [if_neg hc1, toStep_err] at h
        cases h
  · rw [next_prg_err 1 u (by omega), bindE_err, toStep_err] at h
    cases h

/-- Array allocation preserves the frame invariant. -/
theorem stInv_push_arr (w : Nat) (u u' : VM) (a : Unit)
    (h : stack_push_arr w u = .ok (a, u')) (hI : StInv u) : StInv u' := by
  obtain ⟨hI1, hI2, hI3⟩ := hI
  rw [stack_push_arr] at h
  by_cases h1 : u.pc + 8 ≤ u.imageLen
  · rw [next_prg_ok 8 u h1] at h
    simp only [bindE_ok] at h
    by_cases h2 : u.sp + 8 ≤ MAX_STACK
    · rw [stack_push_ok 8 _ _ (by show u.sp + 8 ≤ MAX_STACK; exact h2)] at h
      simp only [Except.ok.injEq, Prod.mk.injEq] at h
      rw [← h.2]
      refine ⟨by show u.bp + 16 ≤ u.sp + 8; omega, by show u.sp + 8 ≤ MAX_STACK; exact h2, ?_⟩
      show chainOk (writeLE u.stack u.sp 8 _) u.imageLen u.bp
      exact chainOk_write _ _ _ _ _ _ (by omega) hI3
    · rw [stack_push_err 8 _ _ (by show MAX_STACK < u.sp + 8; omega)] at h
      cases h
  · rw [next_prg_err 8 u (by omega), bindE_err] at h
    cases h

/-- Array element load preserves the frame invariant. -/
theorem stInv_load_arr (w : Nat) (u u' : VM) (a : Unit) (hw : 0 < w) (hw8 : w ≤ 8)
    (h : load_arr w u = .ok (a, u')) (hI : StInv u) : StInv u' := by
  obtain ⟨hI1, hI2, hI3⟩ := hI
  by_cases h1 : u.bp + 32 ≤ u.sp
  · by_cases h2 : arrChk w (arrIdx u) ≤ readLE u.heap (arrAddr u) 8
    · rw [load_arr_ok w u h1 hI2 hw hw8 h2] at h
      simp only [Except.ok.injEq, Prod.mk.injEq] at h
      rw [← h.2, loadArrRes]
      refine ⟨by show u.bp + 16 ≤ u.sp - 16 + w; omega,
        by show u.sp - 16 + w ≤ MAX_STACK; omega, ?_⟩
      show chainOk (writeLE u.stack (u.sp - 16) w _) u.imageLen u.bp
      exact chainOk_write _ _ _ _ _ _ (by omega) hI3
    · rw [load_arr_err w u h1 (by omega)] at h
      cases h
  · rw [load_arr] at h
    by_cases h3 : u.bp + 16 + 8 ≤ u.sp
    · rw [stack_pop_ok 8 u h3] at h
      simp only [bindE_ok] at h
      rw [stack_pop_err 8 _ (by show u.sp - 8 < u.bp + 16 + 8; omega), bindE_err] at h
      cases h
    · rw [stack_pop_err 8 u (by omega), bindE_err] at h
      cases h

/-- Array element store preserves the frame invariant. -/
theorem stInv_store_arr (w pw : Nat) (u u' : VM) (a : Unit) (hpw : 0 < pw)
    (h : store_arr w pw u = .ok (a, u')) (hI : StInv u) : StInv u' := by
  obtain ⟨hI1, hI2, hI3⟩ := hI
  by_cases h1 : u.bp + 32 + pw ≤ u.sp
  · by_cases h2 : arrChk w (stIdx pw u) ≤ readLE u.heap (stAddr pw u) 8
    · rw [store_arr_ok w pw u h1 h2] at h
      simp only [Except.ok.injEq, Prod.mk.injEq] at h
      rw [← h.2, storeArrRes]
      exact ⟨by show u.bp + 16 ≤ u.sp - pw - 16; omega,
        by show u.sp - pw - 16 ≤ MAX_STACK; omega, hI3⟩
    · rw [store_arr_err w pw u h1 (by omega)] at h
      cases h
  · rw [store_arr] at h
    by_cases h3 : u.bp + 16 + pw ≤ u.sp
    · rw [stack_pop_ok pw u h3] at h
      simp only [bindE_ok] at h
      by_cases h4 : u.bp + 16 + 8 ≤ u.sp - pw
      · rw [stack_pop_ok 8 _ (by show u.bp + 16 + 8 ≤ u.sp - pw; exact h4)] at h
        simp only [bindE_ok] at h
        rw [stack_pop_err 8 _ (by show u.sp - pw - 8 < u.bp + 16 + 8; omega), bindE_err] at h
        cases h
      · rw [stack_pop_err 8 _ (by show u.sp - pw < u.bp + 16 + 8; omega), bindE_err] at h
        cases h
    · rw [stack_pop_err pw u (by omega), bindE_err] at h
      cases h

/-- Checked arithmetic preserves the frame invariant. -/
theorem stInv_calcBin (w : Nat) (f : Nat → Nat → Nat × Bool) (c : Bool) (u u' : VM)
    (a : Unit) (h : calcBin w f c u = .ok (a, u')) (hI : StInv u) : StInv u' := by
  obtain ⟨hI1, hI2, hI3⟩ := hI
  rw [calcBin] at h
  by_cases h1 : u.bp + 16 + w ≤ u.sp
  · rw [stack_pop_ok w u h1] at h
    simp only [bindE_ok] at h
    by_cases h2 : u.bp + 16 + w ≤ u.sp - w
    · rw [stack_pop_ok w _ (by show u.bp + 16 + w ≤ u.sp - w; exact h2)] at h
      simp only [bindE_ok] at h
      by_cases h3 : c = true ∧ readLE u.stack (u.sp - w) w = 0
      · rw [if_pos h3] at h
        cases h
      · rw [if_neg h3] at h
        by_cases h4 : (f (readLE u.stack (u.sp - w - w) w) (readLE u.stack (u.sp - w) w)).2 = true
        · simp only [h4, if_true] at h
          cases h
        · simp only [h4, if_false, Bool.false_eq_true] at h
          by_cases h5 : u.sp - w - w + w ≤ MAX_STACK
          · rw [stack_push_ok w _ _ (by show u.sp - w - w + w ≤ MAX_STACK; exact h5)] at h
            simp only [Except.ok.injEq, Prod.mk.injEq] at h
            rw [← h.2]
            refine ⟨by show u.bp + 16 ≤ u.sp - w - w + w; omega,
              by show u.sp - w - w + w ≤ MAX_STACK; exact h5, ?_⟩
            show chainOk (writeLE u.stack (u.sp - w - w) w _) u.imageLen u.bp
            exact chainOk_write _ _ _ _ _ _ (by omega) hI3
          · rw [stack_push_err w _ _ (by show MAX_STACK < u.sp - w - w + w; omega)] at h
            cases h
    · rw [stack_pop_err w _ (by show u.sp - w < u.bp + 16 + w; omega), bindE_err] at h
      cases h
  · rw [stack_pop_err w u (by omega), bindE_err] at h
    cases h

/-- Comparisons preserve the frame invariant. -/
theorem stInv_cmp (w : Nat) (f : Nat → Nat → Bool) (u u' : VM) (a : Unit)
    (h : op_cmp w f u = .ok (a, u')) (hI : StInv u) : StInv u' := by
  obtain ⟨hI1, hI2, hI3⟩ := hI
  rw [op_cmp] at h
  by_cases h1 : u.bp + 16 + w ≤ u.sp
  · rw [stack_pop_ok w u h1] at h
    simp only [bindE_ok] at h
    by_cases h2 : u.bp + 16 + w ≤ u.sp - w
    · rw [stack_pop_ok w _ (by show u.bp + 16 + w ≤ u.sp - w; exact h2)] at h
      simp only [bindE_ok] at h
      by_cases h3 : u.sp - w - w + 4 ≤ MAX_STACK
      · rw [stack_push_ok 4 _ _ (by show u.sp - w - w + 4 ≤ MAX_STACK; exact h3)] at h
        simp only [Except.ok.injEq, Prod.mk.injEq] at h
        rw [← h.2]
        refine ⟨by show u.bp + 16 ≤ u.sp - w - w + 4; omega,
          by show u.sp - w - w + 4 ≤ MAX_STACK; exact h3, ?_⟩
        show chainOk (writeLE u.stack (u.sp - w - w) 4 _) u.imageLen u.bp
        exact chainOk_write _ _ _ _ _ _ (by omega) hI3
      · rw [stack_push_err 4 _ _ (by show MAX_STACK < u.sp - w - w + 4; omega)] at h
        cases h
    · rw [stack_pop_err w _ (by show u.sp - w < u.bp + 16 + w; omega), bindE_err] at h
      cases h
  · rw [stack_pop_err w u (by omega), bindE_err] at h
    cases h

/-- A successful unit-valued body seen through `toStep`. -/
theorem toStep_inv (x : Except ExitStatus (Unit × VM)) (s' : VM)
    (h : toStep x = .ok s') : x = .ok ((), s') := by
  cases x with
  | error e => cases h
  | ok p =>
    obtain ⟨u, v⟩ := p
    cases u
    simp only [toStep, Except.ok.injEq] at h
    rw [h]

/-- `invoke` preserves the frame invariant: the new frame's anchor extends
the well-formed chain. -/
theorem stInv_invoke (u u' : VM) (h : op_invoke u = .ok u') (hI : StInv u) : StInv u' := by
  obtain ⟨hI1, hI2, hI3⟩ := hI
  obtain ⟨i1, i2, i3, i4, i5, i6, i7, i8, i9, i10, i11, i12, i13, i14, i15, i16, i17⟩ :=
    op_invoke_inv _ _ h
  have hbp' : u.bp + 16 ≤ u'.bp := by
    rcases i4 with h0 | h0
    · rw [i11, h0]
      omega
    · rw [i11]
      omega
  have hmod : u.bp % 2 ^ 64 = u.bp := Nat.mod_eq_of_lt (by
    have : u.bp ≤ MAX_STACK := by omega
    rw [MAX_STACK] at this
    omega)
  rw [hmod] at i15
  refine ⟨by omega, i13, ?_⟩
  rw [i6]
  rw [chainOk_pos _ _ _ (by omega)]
  constructor
  · rw [i11, i15]
    rw [← i11]
    exact hbp'
  · rw [i11, i15]
    exact chainOk_congr u.stack u'.stack u.imageLen u.bp
      (fun a wa hw => i17 a wa (by omega)) hI3

/-- `ret` preserves the invariant: it either returns to a well-formed caller
frame or reaches the degenerate post-entry-return state. -/
theorem stInv_ret (u u' : VM) (h : op_ret u = .ok u') (hI : StInv u) :
    StInv u' ∨ DegInv u' := by
  obtain ⟨hI1, hI2, hI3⟩ := hI
  obtain ⟨r1, r2, r3⟩ := op_ret_inv _ _ h
  by_cases hbp : u.bp = 0
  · right
    obtain ⟨e1, e2⟩ := (chainOk_zero u.stack u.imageLen).1 (by rw [← hbp]; exact hI3)
    rw [r3]
    refine ⟨?_, ?_, ?_⟩
    · show readLE u.stack u.bp 8 = 0
      rw [hbp]
      exact e1
    · show u.bp = 0
      exact hbp
    · show u.imageLen ≤ readLE u.stack (u.bp + 8) 8 + 1
      rw [hbp]
      exact e2
  · left
    obtain ⟨p1, p2⟩ := (chainOk_pos u.stack u.imageLen u.bp hbp).1 hI3
    rw [r3]
    refine ⟨?_, ?_, ?_⟩
    · show readLE u.stack u.bp 8 + 16 ≤ u.bp
      exact p1
    · show u.bp ≤ MAX_STACK
      omega
    · show chainOk u.stack u.imageLen (readLE u.stack u.bp 8)
      exact p2

/-- One successful loop iteration preserves the interpreter invariant,
whatever opcode is dispatched. -/
theorem step_vminv (s s' : VM) (hInv : VMInv s) (h : step s = .ok s') : VMInv s' := by
  obtain ⟨hfetch, hd⟩ := step_inv _ _ h
  rcases hInv with hSt | hDeg
  · have hSt1 : StInv { s with pc := s.pc + 1 } := hSt
    unfold execOp at hd
    split at hd
    · injection hd with hh
      exact Or.inl (hh ▸ hSt1)
    · exact Except.noConfusion hd
    · exact Or.inl (stInv_call _ _ hd hSt1)
    · exact Or.inl (stInv_invoke _ _ hd hSt1)
    · exact stInv_ret _ _ hd hSt1
    · exact Or.inl (stInv_push_arr _ _ _ _ (toStep_inv _ _ hd) hSt1)
    · exact Or.inl (stInv_push_arr _ _ _ _ (toStep_inv _ _ hd) hSt1)
    · exact Or.inl (stInv_push_arr _ _ _ _ (toStep_inv _ _ hd) hSt1)
    · exact Or.inl (stInv_push_arr _ _ _ _ (toStep_inv _ _ hd) hSt1)
    · exact Or.inl (stInv_push_imm _ _ _ _ _ (toStep_inv _ _ hd) hSt1)
    · exact Or.inl (stInv_push_imm _ _ _ _ _ (toStep_inv _ _ hd) hSt1)
    · exact Or.inl (stInv_push_imm _ _ _ _ _ (toStep_inv _ _ hd) hSt1)
    · exact Or.inl (stInv_push_imm _ _ _ _ _ (toStep_inv _ _ hd) hSt1)
    · exact Or.inl (stInv_dup _ _ _ _ (toStep_inv _ _ hd) hSt1)
    · exact Or.inl (stInv_dup _ _ _ _ (toStep_inv _ _ hd) hSt1)
    · exact Or.inl (stInv_discard _ _ _ _ (toStep_inv _ _ hd) hSt1)
    · exact Or.inl (stInv_discard _ _ _ _ (toStep_inv _ _ hd) hSt1)
    · exact Or.inl (stInv_load_var _ _ _ _ (toStep_inv _ _ hd) hSt1)
    · exact Or.inl (stInv_load_var _ _ _ _ (toStep_inv _ _ hd) hSt1)
    · exact Or.inl (stInv_load_arr _ _ _ _ (by norm_num) (by norm_num) (toStep_inv _ _ hd) hSt1)
    · exact Or.inl (stInv_load_arr _ _ _ _ (by norm_num) (by norm_num) (toStep_inv _ _ hd) hSt1)
    · exact Or.inl (stInv_load_arr _ _ _ _ (by norm_num) (by norm_num) (toStep_inv _ _ hd) hSt1)
    · exact Or.inl (stInv_load_arr _ _ _ _ (by norm_num) (by norm_num) (toStep_inv _ _ hd) hSt1)
    · exact Or.inl (stInv_store_var _ _ _ _ (toStep_inv _ _ hd) hSt1)
    · exact Or.inl (stInv_store_var _ _ _ _ (toStep_inv _ _ hd) hSt1)
    · exact Or.inl (stInv_store_arr _ _ _ _ _ (by norm_num) (toStep_inv _ _ hd) hSt1)
    · exact Or.inl (stInv_store_arr _ _ _ _ _ (by norm_num) (toStep_inv _ _ hd) hSt1)
    · exact Or.inl (stInv_store_arr _ _ _ _ _ (by norm_num) (toStep_inv _ _ hd) hSt1)
    · exact Or.inl (stInv_store_arr _ _ _ _ _ (by norm_num) (toStep_inv _ _ hd) hSt1)
    · exact Or.inl (stInv_discard _ _ _ _ (toStep_inv _ _ hd) hSt1)
    · exact Or.inl (stInv_calcBin _ _ _ _ _ _ (toStep_inv _ _ hd) hSt1)
    · exact Or.inl (stInv_calcBin _ _ _ _ _ _ (toStep_inv _ _ hd) hSt1)
    · exact Or.inl (stInv_calcBin _ _ _ _ _ _ (toStep_inv _ _ hd) hSt1)
    · exact Or.inl (stInv_calcBin _ _ _ _ _ _ (toStep_inv _ _ hd) hSt1)
    · exact Or.inl (stInv_calcBin _ _ _ _ _ _ (toStep_inv _ _ hd) hSt1)
    · exact Or.inl (stInv_calcBin _ _ _ _ _ _ (toStep_inv _ _ hd) hSt1)
    · exact Or.inl (stInv_calcBin _ _ _ _ _ _ (toStep_inv _ _ hd) hSt1)
    · exact Or.inl (stInv_calcBin _ _ _ _ _ _ (toStep_inv _ _ hd) hSt1)
    · exact Or.inl (stInv_cmp _ _ _ _ _ (toStep_inv _ _ hd) hSt1)
    · exact Or.inl (stInv_cmp _ _ _ _ _ (toStep_inv _ _ hd) hSt1)
    · exact Or.inl (stInv_cmp _ _ _ _ _ (toStep_inv _ _ hd) hSt1)
    · exact Or.inl (stInv_cmp _ _ _ _ _ (toStep_inv _ _ hd) hSt1)
    · exact Or.inl (stInv_cmp _ _ _ _ _ (toStep_inv _ _ hd) hSt1)
    · exact Or.inl (stInv_cmp _ _ _ _ _ (toStep_inv _ _ hd) hSt1)
    · exact Or.inl (stInv_cmp _ _ _ _ _ (toStep_inv _ _ hd) hSt1)
    · exact Or.inl (stInv_cmp _ _ _ _ _ (toStep_inv _ _ hd) hSt1)
    · exact Or.inl (stInv_goto _ _ _ (toStep_inv _ _ hd) hSt1)
    · exact Or.inl (stInv_cond _ _ _ _ (toStep_inv _ _ hd) hSt1)
    · exact Or.inl (stInv_cond _ _ _ _ (toStep_inv _ _ hd) hSt1)
    · exact Except.noConfusion hd
  · obtain ⟨hb0, hs0, hlen⟩ := hDeg
    unfold execOp at hd
    split at hd
    · injection hd with hh
      exact Or.inr ⟨by rw [← hh]; exact hb0, by rw [← hh]; exact hs0,
        by rw [← hh]; show s.imageLen ≤ s.pc + 1 + 1; omega⟩
    · exact Except.noConfusion hd
    · rw [op_call] at hd
      rw [next_prg_err _ _ (by show s.imageLen < s.pc + 1 + _; omega), bindE_err, toStep_err] at hd
      cases hd
    · rw [op_invoke] at hd
      rw [next_prg_err _ _ (by show s.imageLen < s.pc + 1 + _; omega), bindE_err, toStep_err] at hd
      cases hd
    · rw [op_ret] at hd
      rw [if_pos (Or.inr (by show s.sp - s.bp < 16; omega))] at hd
      cases hd
    · rw [stack_push_arr] at hd
      rw [next_prg_err _ _ (by show s.imageLen < s.pc + 1 + _; omega), bindE_err, toStep_err] at hd
      cases hd
    · rw [stack_push_arr] at hd
      rw [next_prg_err _ _ (by show s.imageLen < s.pc + 1 + _; omega), bindE_err, toStep_err] at hd
      cases hd
    · rw [stack_push_arr] at hd
      rw [next_prg_err _ _ (by show s.imageLen < s.pc + 1 + _; omega), bindE_err, toStep_err] at hd
      cases hd
    · rw [stack_push_arr] at hd
      rw [next_prg_err _ _ (by show s.imageLen < s.pc + 1 + _; omega), bindE_err, toStep_err] at hd
      cases hd
    · rw [push_imm] at hd
      rw [next_prg_err _ _ (by show s.imageLen < s.pc + 1 + _; omega), bindE_err, toStep_err] at hd
      cases hd
    · rw [push_imm] at hd
      rw [next_prg_err _ _ (by show s.imageLen < s.pc + 1 + _; omega), bindE_err, toStep_err] at hd
      cases hd
    · rw [push_imm] at hd
      rw [next_prg_err _ _ (by show s.imageLen < s.pc + 1 + _; omega), bindE_err, toStep_err] at hd
      cases hd
    · rw [push_imm] at hd
      rw [next_prg_err _ _ (by show s.imageLen < s.pc + 1 + _; omega), bindE_err, toStep_err] at hd
      cases hd
    · rw [op_dup] at hd
      rw [stack_top_err _ _ (by show s.sp < s.bp + 16 + _; omega), bindE_err, toStep_err] at hd
      cases hd
    · rw [op_dup] at hd
      rw [stack_top_err _ _ (by show s.sp < s.bp + 16 + _; omega), bindE_err, toStep_err] at hd
      cases hd
    · rw [op_discard] at hd
      rw [stack_pop_err _ _ (by show s.sp < s.bp + 16 + _; omega), bindE_err, toStep_err] at hd
      cases hd
    · rw [op_discard] at hd
      rw [stack_pop_err _ _ (by show s.sp < s.bp + 16 + _; omega), bindE_err, toStep_err] at hd
      cases hd
    · rw [op_load_var] at hd
      rw [next_prg_err _ _ (by show s.imageLen < s.pc + 1 + _; omega), bindE_err, toStep_err] at hd
      cases hd
    · rw [op_load_var] at hd
      rw [next_prg_err _ _ (by show s.imageLen < s.pc + 1 + _; omega), bindE_err, toStep_err] at hd
      cases hd
    · rw [load_arr] at hd
      rw [stack_pop_err _ _ (by show s.sp < s.bp + 16 + _; omega), bindE_err, toStep_err] at hd
      cases hd
    · rw [load_arr] at hd
      rw [stack_pop_err _ _ (by show s.sp < s.bp + 16 + _; omega), bindE_err, toStep_err] at hd
      cases hd
    · rw [load_arr] at hd
      rw [stack_pop_err _ _ (by show s.sp < s.bp + 16 + _; omega), bindE_err, toStep_err] at hd
      cases hd
    · rw [load_arr] at hd
      rw [stack_pop_err _ _ (by show s.sp < s.bp + 16 + _; omega), bindE_err, toStep_err] at hd
      cases hd
    · rw [op_store_var] at hd
      rw [next_prg_err _ _ (by show s.imageLen < s.pc + 1 + _; omega), bindE_err, toStep_err] at hd
      cases hd
    · rw [op_store_var] at hd
      rw [next_prg_err _ _ (by show s.imageLen < s.pc + 1 + _; omega), bindE_err, toStep_err] at hd
      cases hd
    · rw [store_arr] at hd
      rw [stack_pop_err _ _ (by show s.sp < s.bp + 16 + _; omega), bindE_err, toStep_err] at hd
      cases hd
    · rw [store_arr] at hd
      rw [stack_pop_err _ _ (by show s.sp < s.bp + 16 + _; omega), bindE_err, toStep_err] at hd
      cases hd
    · rw [store_arr] at hd
      rw [stack_pop_err _ _ (by show s.sp < s.bp + 16 + _; omega), bindE_err, toStep_err] at hd
      cases hd
    · rw [store_arr] at hd
      rw [stack_pop_err _ _ (by show s.sp < s.bp + 16 + _; omega), bindE_err, toStep_err] at hd
      cases hd
    · rw [op_discard] at hd
      rw [stack_pop_err _ _ (by show s.sp < s.bp + 16 + _; omega), bindE_err, toStep_err] at hd
      cases hd
    · rw [calcBin] at hd
      rw [stack_pop_err _ _ (by show s.sp < s.bp + 16 + _; omega), bindE_err, toStep_err] at hd
      cases hd
    · rw [calcBin] at hd
      rw [stack_pop_err _ _ (by show s.sp < s.bp + 16 + _; omega), bindE_err, toStep_err] at hd
      cases hd
    · rw [calcBin] at hd
      rw [stack_pop_err _ _ (by show s.sp < s.bp + 16 + _; omega), bindE_err, toStep_err] at hd
      cases hd
    · rw [calcBin] at hd
      rw [stack_pop_err _ _ (by show s.sp < s.bp + 16 + _; omega), bindE_err, toStep_err] at hd
      cases hd
    · rw [calcBin] at hd
      rw [stack_pop_err _ _ (by show s.sp < s.bp + 16 + _; omega), bindE_err, toStep_err] at hd
      cases hd
    · rw [calcBin] at hd
      rw [stack_pop_err _ _ (by show s.sp < s.bp + 16 + _; omega), bindE_err, toStep_err] at hd
      cases hd
    · rw [calcBin] at hd
      rw [stack_pop_err _ _ (by show s.sp < s.bp + 16 + _; omega), bindE_err, toStep_err] at hd
      cases hd
    · rw [calcBin] at hd
      rw [stack_pop_err _ _ (by show s.sp < s.bp + 16 + _; omega), bindE_err, toStep_err] at hd
      cases hd
    · rw [op_cmp] at hd
      rw [stack_pop_err _ _ (by show s.sp < s.bp + 16 + _; omega), bindE_err, toStep_err] at hd
      cases hd
    · rw [op_cmp] at hd
      rw [stack_pop_err _ _ (by show s.sp < s.bp + 16 + _; omega), bindE_err, toStep_err] at hd
      cases hd
    · rw [op_cmp] at hd
      rw [stack_pop_err _ _ (by show s.sp < s.bp + 16 + _; omega), bindE_err, toStep_err] at hd
      cases hd
    · rw [op_cmp] at hd
      rw [stack_pop_err _ _ (by show s.sp < s.bp + 16 + _; omega), bindE_err, toStep_err] at hd
      cases hd
    · rw [op_cmp] at hd
      rw [stack_pop_err _ _ (by show s.sp < s.bp + 16 + _; omega), bindE_err, toStep_err] at hd
      cases hd
    · rw [op_cmp] at hd
      rw [stack_pop_err _ _ (by show s.sp < s.bp + 16 + _; omega), bindE_err, toStep_err] at hd
      cases hd
    · rw [op_cmp] at hd
      rw [stack_pop_err _ _ (by show s.sp < s.bp + 16 + _; omega), bindE_err, toStep_err] at hd
      cases hd
    · rw [op_cmp] at hd
      rw [stack_pop_err _ _ (by show s.sp < s.bp + 16 + _; omega), bindE_err, toStep_err] at hd
      cases hd
    · rw [goto_m, next_prg_i16] at hd
      rw [if_pos (by show s.imageLen < s.pc + 1 + 2; omega), bindE_err, toStep_err] at hd
      cases hd
    · rw [op_cond] at hd
      rw [stack_pop_err _ _ (by show s.sp < s.bp + 16 + _; omega), bindE_err, toStep_err] at hd
      cases hd
    · rw [op_cond] at hd
      rw [stack_pop_err _ _ (by show s.sp < s.bp + 16 + _; omega), bindE_err, toStep_err] at hd
      cases hd
    · exact Except.noConfusion hd

/-- The bootstrapped initial state satisfies the interpreter invariant. -/
theorem initVM_inv (im : Nat → Nat) (len entry : Nat) (hlen : len ≤ 2 ^ 64) :
    VMInv (initVM im len entry) := by
  left
  refine ⟨by show 0 + 16 ≤ 16; omega, by show (16 : Nat) ≤ MAX_STACK; norm_num [MAX_STACK], ?_⟩
  show chainOk (writeLE (writeLE (fun _ => 0) 0 8 0) 8 8 (len - 1)) len 0
  rw [chainOk_zero]
  constructor
  · rw [readLE_writeLE_below _ _ _ _ _ _ (by omega), readLE_writeLE]
    norm_num
  · rw [readLE_writeLE]
    have h8 : (256 : Nat) ^ 8 = 2 ^ 64 := by norm_num
    rw [h8, Nat.mod_eq_of_lt (by omega)]
    omega

/-- The invariant holds in every state reachable by successful iterations. -/
theorem reaches_vminv (a b : VM) (hInv : VMInv a) (h : Reaches a b) : VMInv b := by
  induction h with
  | refl => exact hInv
  | tail hr hs ih => exact step_vminv _ _ ih hs

/-- C3: in every interpreter state reachable between opcode dispatches, for
every image, `0 ≤ bp ≤ sp ≤ MAX_STACK` holds; a primitive that would break
the bound faults (producing no successor state) before changing `bp` or
`sp`. -/
theorem c3_stack_pointer_invariant (im : Nat → Nat) (len entry : Nat) (s : VM)
    (hlen : len ≤ 2 ^ 64) (h : Reaches (initVM im len entry) s) :
    s.bp ≤ s.sp ∧ s.sp ≤ MAX_STACK := by
  have hInv := reaches_vminv _ _ (initVM_inv im len entry hlen) h
  rcases hInv with ⟨h1, h2, _⟩ | ⟨h1, h2, _⟩
  · exact ⟨by omega, h2⟩
  · rw [h1, h2]
    exact ⟨Nat.le_refl 0, by norm_num [MAX_STACK]⟩

/-- Witness for C3 at the concrete machine's initial state. -/
theorem c3_stack_pointer_invariant_witness :
    (160 : Nat) ≤ 2 ^ 64 ∧
    (initVM c2img 160 100).bp ≤ (initVM c2img 160 100).sp ∧
    (initVM c2img 160 100).sp ≤ MAX_STACK :=
  ⟨by norm_num,
   c3_stack_pointer_invariant c2img 160 100 (initVM c2img 160 100) (by norm_num)
     (Reaches.refl _)⟩
